import Mathlib

/-!
Verification of the map-flattening tool (`src/utils/flatten_map.py`).

The Python module rewrites a voxel-world document: it computes the bounding
box of all block coordinates, builds a flat grass surface at `TARGET_HEIGHT`,
merges the retained (sub-surface / water) blocks on top of it, and finally
writes a stone-bricks center marker.  This file is a shallow embedding of
that module: Python dicts become association lists with Python-dict insert
and lookup semantics, Python exceptions become `Except PyError`, and each
function of the module is translated one-to-one.  File I/O (`load_map`,
`save_map`, `save_modified_map`) is outside the scope of the claims and is
not modelled; `runTransform` is the in-memory pipeline of `main`.
-/

namespace FlattenMap

/-! ## Python-level error model

`PyError.valueError` models the `ValueError` raised by `int(...)` on a
malformed literal, `PyError.emptySeqMin` the `ValueError` raised by
`min()` / `max()` on an empty sequence, and `PyError.attributeError` the
`AttributeError` raised when `BlockTypes` has no attribute of the given
name. -/

inductive PyError where
  | valueError (msg : String)
  | emptySeqMin
  | attributeError (attr : String)
  deriving DecidableEq, Repr

/-! ## Decimal integers: Python `int(s)` and f-string formatting

Python's `f"{n}"` prints an integer in canonical decimal (a `-` sign for
negatives, no leading zeros, `0` for zero).  `int(s)` accepts an optional
sign followed by digits.  (Python additionally accepts surrounding
whitespace, underscores between digits and non-ASCII digits; no input in
this development exercises those, so the model rejects them.) -/

def digitChar (d : Nat) : Char :=
  match d with
  | 0 => '0'
  | 1 => '1'
  | 2 => '2'
  | 3 => '3'
  | 4 => '4'
  | 5 => '5'
  | 6 => '6'
  | 7 => '7'
  | 8 => '8'
  | 9 => '9'
  | _ => '*'

def digitVal? (ch : Char) : Option Nat :=
  if ch = '0' then some 0
  else if ch = '1' then some 1
  else if ch = '2' then some 2
  else if ch = '3' then some 3
  else if ch = '4' then some 4
  else if ch = '5' then some 5
  else if ch = '6' then some 6
  else if ch = '7' then some 7
  else if ch = '8' then some 8
  else if ch = '9' then some 9
  else none

def natCharsAux : Nat → Nat → List Char
  | 0, _ => []
  | fuel + 1, n =>
    if n = 0 then [] else natCharsAux fuel (n / 10) ++ [digitChar (n % 10)]

/-- Canonical decimal digits of a natural number (as printed by Python). -/
def natChars (n : Nat) : List Char :=
  if n = 0 then ['0'] else natCharsAux (n + 1) n

/-- Canonical decimal form of an integer (as printed by Python `f"{i}"`). -/
def intChars (i : Int) : List Char :=
  if i < 0 then '-' :: natChars i.natAbs else natChars i.natAbs

def readDigits : Nat → List Char → Option Nat
  | acc, [] => some acc
  | acc, ch :: cs =>
    match digitVal? ch with
    | some d => readDigits (acc * 10 + d) cs
    | none => none

def parseNatDigits (cs : List Char) : Option Nat :=
  if cs = [] then none else readDigits 0 cs

/-- Model of Python `int(s)` on a list of characters. -/
def parseInt (cs : List Char) : Option Int :=
  match cs with
  | [] => none
  | c :: rest =>
    if c = '-' then (parseNatDigits rest).map (fun n => -(n : Int))
    else if c = '+' then (parseNatDigits rest).map (fun n => (n : Int))
    else (parseNatDigits (c :: rest)).map (fun n => (n : Int))

/-- Model of Python `str.split(',')` on a list of characters. -/
def splitOnComma : List Char → List (List Char)
  | [] => [[]]
  | ch :: rest =>
    if ch = ',' then [] :: splitOnComma rest
    else
      match splitOnComma rest with
      | part :: parts => (ch :: part) :: parts
      | [] => [[ch]]

/-! ## Data model (`BlockData`, `MapData`, `Coordinates`, `MapBounds`) -/

structure BlockData where
  id : Int
  name : String
  textureUri : String
  isLiquid : Bool
  deriving DecidableEq, Repr

/-- `Coordinates` dataclass of the source: an integer triple. -/
structure Coordinates where
  x : Int
  y : Int
  z : Int
  deriving DecidableEq, Repr

/-- `Coordinates.from_string`: `x, y, z = map(int, coord_str.split(','))`.
Returns `none` where Python raises (wrong field count or `int` failure). -/
def Coordinates.from_string (s : String) : Option Coordinates :=
  match splitOnComma s.data with
  | [a, b, c] =>
    match parseInt a, parseInt b, parseInt c with
    | some x, some y, some z => some ⟨x, y, z⟩
    | _, _, _ => none
  | _ => none

/-- `Coordinates.to_string`: the f-string `f"{self.x},{self.y},{self.z}"`. -/
def Coordinates.to_string (c : Coordinates) : String :=
  ⟨intChars c.x ++ (',' :: (intChars c.y ++ (',' :: intChars c.z)))⟩

/-- `MapBounds` dataclass of the source. -/
structure MapBounds where
  min_x : Int
  max_x : Int
  min_z : Int
  max_z : Int
  deriving DecidableEq, Repr

/-- `MapBounds.center`: Python `//` is floor division, i.e. `Int.fdiv`. -/
def MapBounds.center (b : MapBounds) : Int × Int :=
  ((b.min_x + b.max_x).fdiv 2, (b.min_z + b.max_z).fdiv 2)

/-- The in-memory form of the JSON document (`MapData` TypedDict):
the block mapping is a Python dict, modelled as an insertion-ordered
association list. -/
structure MapData where
  blockTypes : List BlockData
  blocks : List (String × Int)

/-! ## Python dict operations on association lists

A Python dict is an insertion-ordered map with unique keys.  `dictInsert`
is `d[k] = v` (overwrite in place if the key exists, append otherwise),
`dictGet?` is key lookup, `dictUpdate` is `d1.update(d2)`. -/

def dictGet? : List (String × Int) → String → Option Int
  | [], _ => none
  | p :: rest, k => if p.1 = k then some p.2 else dictGet? rest k

def dictInsert (d : List (String × Int)) (k : String) (v : Int) :
    List (String × Int) :=
  if d.any (fun p => decide (p.1 = k)) then
    d.map (fun p => if p.1 = k then (k, v) else p)
  else d ++ [(k, v)]

def dictUpdate (d : List (String × Int)) (items : List (String × Int)) :
    List (String × Int) :=
  items.foldl (fun acc p => dictInsert acc p.1 p.2) d

/-- The keys of a well-formed Python dict are pairwise distinct. -/
def NoDupKeys (d : List (String × Int)) : Prop :=
  (d.map Prod.fst).Nodup

/-! ## Block-type table (`BlockTypes`)

`BlockTypes.__init__` does `setattr(self, name.upper().replace('-','_'),
id)` for each entry, so a later entry with the same normalized name
overwrites an earlier one; an attribute access for an absent name raises
`AttributeError`. -/

/-- Name normalization: `block['name'].upper().replace('-', '_')`. -/
def normalizeName (s : String) : String :=
  ⟨(s.data.map Char.toUpper).map (fun ch => if ch = '-' then '_' else ch)⟩

/-- The dynamic attribute table built by `BlockTypes.__init__`:
the last `setattr` for a normalized name wins. -/
def lookupAttr (bts : List BlockData) (attr : String) : Option Int :=
  (bts.reverse.find? (fun b => decide (normalizeName b.name = attr))).map
    BlockData.id

/-- An attribute access `block_types.<attr>`, raising `AttributeError`
when absent. -/
def getattr (bts : List BlockData) (attr : String) : Except PyError Int :=
  match lookupAttr bts attr with
  | some i => Except.ok i
  | none => Except.error (PyError.attributeError attr)

/-! ## Module constants -/

def TARGET_HEIGHT : Int := 0

def CENTER_MARKER_HEIGHT : Int := 2

/-- Python `range(lo, hi + 1)` over integers. -/
def intRange (lo hi : Int) : List Int :=
  (List.range (hi + 1 - lo).toNat).map (fun i => lo + Int.ofNat i)

/-! ## `get_map_bounds` -/

/-- The list comprehension
`[Coordinates.from_string(s) for s in blocks.keys()]`; the first malformed
key raises `ValueError` inside `int(...)`. -/
def parseKeys : List (String × Int) → Except PyError (List Coordinates)
  | [] => Except.ok []
  | p :: rest =>
    match Coordinates.from_string p.1 with
    | some c => (parseKeys rest).map (fun cs => c :: cs)
    | none => Except.error (PyError.valueError p.1)

/-- `get_map_bounds`: min/max over the x and z of every parsed key.
Python's `min`/`max` over an empty sequence raise `ValueError`
(`PyError.emptySeqMin`); over a nonempty one they fold `min`/`max`. -/
def get_map_bounds (blocks : List (String × Int)) : Except PyError MapBounds :=
  match parseKeys blocks with
  | Except.error e => Except.error e
  | Except.ok [] => Except.error PyError.emptySeqMin
  | Except.ok (c :: cs) =>
    Except.ok
      { min_x := cs.foldl (fun m c' => min m c'.x) c.x
        max_x := cs.foldl (fun m c' => max m c'.x) c.x
        min_z := cs.foldl (fun m c' => min m c'.z) c.z
        max_z := cs.foldl (fun m c' => max m c'.z) c.z }

/-! ## `create_flat_surface` -/

/-- The coordinates visited by the two nested `for` loops of
`create_flat_surface`, in loop order. -/
def surfaceCoords (bounds : MapBounds) : List Coordinates :=
  (intRange bounds.min_x bounds.max_x).flatMap (fun x =>
    (intRange bounds.min_z bounds.max_z).map (fun z =>
      ⟨x, TARGET_HEIGHT, z⟩))

def surfaceAux (bts : List BlockData) (d : List (String × Int)) :
    List Coordinates → Except PyError (List (String × Int))
  | [] => Except.ok d
  | c :: rest =>
    match getattr bts "GRASS" with
    | Except.error e => Except.error e
    | Except.ok g => surfaceAux bts (dictInsert d (Coordinates.to_string c) g) rest

/-- `create_flat_surface`: one grass block per (x, z) cell of the bounding
box, at `TARGET_HEIGHT`; `block_types.GRASS` is read inside the loop. -/
def create_flat_surface (bounds : MapBounds) (bts : List BlockData) :
    Except PyError (List (String × Int)) :=
  surfaceAux bts [] (surfaceCoords bounds)

/-! ## `process_existing_blocks` -/

/-- One iteration of the loop of `process_existing_blocks`: parse the key,
read `block_types.WATER_STILL`, then keep water iff `y <= TARGET_HEIGHT`
and every other block iff `y < TARGET_HEIGHT`. -/
def keepStep (bts : List BlockData) (d : List (String × Int))
    (p : String × Int) : Except PyError (List (String × Int)) :=
  match Coordinates.from_string p.1 with
  | none => Except.error (PyError.valueError p.1)
  | some c =>
    match getattr bts "WATER_STILL" with
    | Except.error e => Except.error e
    | Except.ok w =>
      if p.2 = w then
        if c.y ≤ TARGET_HEIGHT then Except.ok (dictInsert d p.1 p.2)
        else Except.ok d
      else
        if c.y < TARGET_HEIGHT then Except.ok (dictInsert d p.1 p.2)
        else Except.ok d

def pebAux (bts : List BlockData) (d : List (String × Int)) :
    List (String × Int) → Except PyError (List (String × Int))
  | [] => Except.ok d
  | p :: rest =>
    match keepStep bts d p with
    | Except.error e => Except.error e
    | Except.ok d' => pebAux bts d' rest

/-- `process_existing_blocks`: the retention filter over the original
block mapping. -/
def process_existing_blocks (blocks : List (String × Int))
    (bts : List BlockData) : Except PyError (List (String × Int)) :=
  pebAux bts [] blocks

/-! ## `add_center_marker` -/

def markerAux (bts : List BlockData) (center : Int × Int)
    (d : List (String × Int)) : List Int → Except PyError (List (String × Int))
  | [] => Except.ok d
  | h :: rest =>
    match getattr bts "STONE_BRICKS" with
    | Except.error e => Except.error e
    | Except.ok sb =>
      markerAux bts center
        (dictInsert d
          (Coordinates.to_string ⟨center.1, TARGET_HEIGHT + h, center.2⟩) sb)
        rest

/-- `add_center_marker`: for `height in range(1, CENTER_MARKER_HEIGHT + 1)`
write a stone-bricks block at `(center_x, TARGET_HEIGHT + height, center_z)`. -/
def add_center_marker (blocks : List (String × Int)) (center : Int × Int)
    (bts : List BlockData) : Except PyError (List (String × Int)) :=
  markerAux bts center blocks (intRange 1 CENTER_MARKER_HEIGHT)

/-! ## The pipeline of `main` (file I/O and printing omitted) -/

/-- The block-mapping transformation performed by `main`: bounds, flat
surface, retention filter merged on top, center marker written last. -/
def runTransform (md : MapData) : Except PyError (List (String × Int)) :=
  match get_map_bounds md.blocks with
  | Except.error e => Except.error e
  | Except.ok bounds =>
    match create_flat_surface bounds md.blockTypes with
    | Except.error e => Except.error e
    | Except.ok surface =>
      match process_existing_blocks md.blocks md.blockTypes with
      | Except.error e => Except.error e
      | Except.ok underground =>
        add_center_marker (dictUpdate surface underground) bounds.center
          md.blockTypes

/-! ## Lemmas: decimal round-trip -/

theorem digitVal?_digitChar {d : Nat} (h : d < 10) :
    digitVal? (digitChar d) = some d := by
  interval_cases d <;> rfl

theorem digitChar_ne_dash {d : Nat} (h : d < 10) : digitChar d ≠ '-' := by
  interval_cases d <;> decide

theorem digitChar_ne_plus {d : Nat} (h : d < 10) : digitChar d ≠ '+' := by
  interval_cases d <;> decide

theorem digitChar_ne_comma {d : Nat} (h : d < 10) : digitChar d ≠ ',' := by
  interval_cases d <;> decide

theorem natCharsAux_zero (fuel : Nat) : natCharsAux fuel 0 = [] := by
  cases fuel <;> simp [natCharsAux]

theorem mem_natCharsAux {fuel n : Nat} {c : Char}
    (h : c ∈ natCharsAux fuel n) : ∃ d, d < 10 ∧ c = digitChar d := by
  induction fuel generalizing n with
  | zero => simp [natCharsAux] at h
  | succ fuel ih =>
    by_cases hn : n = 0
    · simp [natCharsAux, hn] at h
    · rw [natCharsAux, if_neg hn] at h
      rcases List.mem_append.1 h with h1 | h2
      · exact ih h1
      · exact ⟨n % 10, Nat.mod_lt _ (by omega), List.mem_singleton.1 h2⟩

theorem readDigits_append (acc : Nat) (l1 l2 : List Char) :
    readDigits acc (l1 ++ l2) =
      match readDigits acc l1 with
      | some a => readDigits a l2
      | none => none := by
  induction l1 generalizing acc with
  | nil => rfl
  | cons ch cs ih =>
    show readDigits acc (ch :: (cs ++ l2)) = _
    rw [readDigits, readDigits]
    cases digitVal? ch with
    | none => rfl
    | some d => exact ih _

theorem readDigits_natCharsAux :
    ∀ fuel n, n ≤ fuel → 0 < n →
      ∃ P, 0 < P ∧
        ∀ acc, readDigits acc (natCharsAux fuel n) = some (acc * P + n) := by
  intro fuel
  induction fuel with
  | zero => intro n h1 h2; omega
  | succ fuel ih =>
    intro n hle hpos
    rw [natCharsAux, if_neg (by omega)]
    by_cases hsmall : n < 10
    · refine ⟨10, by omega, fun acc => ?_⟩
      have hdiv : n / 10 = 0 := Nat.div_eq_of_lt hsmall
      rw [hdiv, natCharsAux_zero, List.nil_append, readDigits,
        digitVal?_digitChar (Nat.mod_lt _ (by omega))]
      have hmod : n % 10 = n := Nat.mod_eq_of_lt hsmall
      rw [hmod]
      rfl
    · have hdivle : n / 10 ≤ fuel := by
        have := Nat.div_lt_self hpos (by omega : 1 < 10)
        omega
      have hdivpos : 0 < n / 10 := Nat.div_pos (by omega) (by omega)
      obtain ⟨P, hP, hread⟩ := ih (n / 10) hdivle hdivpos
      refine ⟨P * 10, by omega, fun acc => ?_⟩
      rw [readDigits_append, hread acc]
      show readDigits (acc * P + n / 10) [digitChar (n % 10)] =
        some (acc * (P * 10) + n)
      rw [readDigits, digitVal?_digitChar (Nat.mod_lt _ (by omega))]
      show some ((acc * P + n / 10) * 10 + n % 10) = _
      have := Nat.div_add_mod n 10
      congr 1
      ring_nf
      omega

theorem parseNatDigits_natChars (n : Nat) :
    parseNatDigits (natChars n) = some n := by
  by_cases hn : n = 0
  · subst hn; rfl
  · rw [natChars, if_neg hn]
    obtain ⟨P, hP, hread⟩ :=
      readDigits_natCharsAux (n + 1) n (by omega) (by omega)
    have hne : natCharsAux (n + 1) n ≠ [] := by
      intro h
      have h0 := hread 0
      rw [h] at h0
      simp [readDigits] at h0
      omega
    rw [parseNatDigits, if_neg hne]
    simpa using hread 0

theorem mem_natChars {n : Nat} {c : Char} (h : c ∈ natChars n) :
    ∃ d, d < 10 ∧ c = digitChar d := by
  by_cases hn : n = 0
  · subst hn
    simp [natChars] at h
    exact ⟨0, by omega, h⟩
  · rw [natChars, if_neg hn] at h
    exact mem_natCharsAux h

theorem natChars_ne_nil (n : Nat) : natChars n ≠ [] := by
  intro h
  have := parseNatDigits_natChars n
  rw [h] at this
  simp [parseNatDigits] at this

theorem parseInt_intChars (i : Int) : parseInt (intChars i) = some i := by
  by_cases hneg : i < 0
  · rw [intChars, if_pos hneg]
    show parseInt ('-' :: natChars i.natAbs) = some i
    rw [parseInt, if_pos rfl, parseNatDigits_natChars]
    show some (-(i.natAbs : Int)) = some i
    congr 1
    omega
  · rw [intChars, if_neg hneg]
    obtain ⟨c, cs, hc⟩ := List.exists_cons_of_ne_nil (natChars_ne_nil i.natAbs)
    have hmem : c ∈ natChars i.natAbs := by
      rw [hc]; exact List.mem_cons_self c cs
    obtain ⟨d, hd, hcd⟩ := mem_natChars hmem
    rw [hc, parseInt, if_neg (hcd ▸ digitChar_ne_dash hd),
      if_neg (hcd ▸ digitChar_ne_plus hd), ← hc, parseNatDigits_natChars]
    show some ((i.natAbs : Int)) = some i
    congr 1
    omega

theorem comma_not_mem_intChars (i : Int) : ',' ∉ intChars i := by
  intro h
  rw [intChars] at h
  by_cases hneg : i < 0
  · rw [if_pos hneg] at h
    rcases List.mem_cons.1 h with h | h
    · exact absurd h (by decide)
    · obtain ⟨d, hd, hcd⟩ := mem_natChars h
      exact digitChar_ne_comma hd hcd.symm
  · rw [if_neg hneg] at h
    obtain ⟨d, hd, hcd⟩ := mem_natChars h
    exact digitChar_ne_comma hd hcd.symm

theorem splitOnComma_no_comma {l : List Char} (h : ',' ∉ l) :
    splitOnComma l = [l] := by
  induction l with
  | nil => rfl
  | cons c cs ih =>
    have hnc : ¬(c = ',') := by
      intro hh
      exact h (hh ▸ List.mem_cons_self c cs)
    have hcs : ',' ∉ cs := fun hh => h (List.mem_cons_of_mem c hh)
    rw [splitOnComma, if_neg hnc, ih hcs]

theorem splitOnComma_append {l : List Char} (rest : List Char) (h : ',' ∉ l) :
    splitOnComma (l ++ ',' :: rest) = l :: splitOnComma rest := by
  induction l with
  | nil => simp [splitOnComma]
  | cons c cs ih =>
    have hnc : ¬(c = ',') := by
      intro hh
      exact h (hh ▸ List.mem_cons_self c cs)
    have hcs : ',' ∉ cs := fun hh => h (List.mem_cons_of_mem c hh)
    show splitOnComma (c :: (cs ++ ',' :: rest)) = _
    rw [splitOnComma, if_neg hnc, ih hcs]

theorem from_string_to_string (c : Coordinates) :
    Coordinates.from_string (Coordinates.to_string c) = some c := by
  rcases c with ⟨x, y, z⟩
  show Coordinates.from_string
    ⟨intChars x ++ (',' :: (intChars y ++ (',' :: intChars z)))⟩ = _
  rw [Coordinates.from_string]
  show (match splitOnComma
      (intChars x ++ (',' :: (intChars y ++ (',' :: intChars z)))) with
    | [a, b, c] =>
      match parseInt a, parseInt b, parseInt c with
      | some x, some y, some z => some (⟨x, y, z⟩ : Coordinates)
      | _, _, _ => none
    | _ => none) = some ⟨x, y, z⟩
  rw [splitOnComma_append _ (comma_not_mem_intChars x),
    splitOnComma_append _ (comma_not_mem_intChars y),
    splitOnComma_no_comma (comma_not_mem_intChars z)]
  show (match parseInt (intChars x), parseInt (intChars y),
      parseInt (intChars z) with
    | some x, some y, some z => some (⟨x, y, z⟩ : Coordinates)
    | _, _, _ => none) = some ⟨x, y, z⟩
  rw [parseInt_intChars, parseInt_intChars, parseInt_intChars]

theorem to_string_inj {c1 c2 : Coordinates}
    (h : Coordinates.to_string c1 = Coordinates.to_string c2) : c1 = c2 := by
  have h1 := from_string_to_string c1
  rw [h, from_string_to_string c2] at h1
  exact (Option.some.inj h1).symm

/-! ## Lemmas: Python dict semantics -/

/-- First-some choice on options (`Option.orElse` without the thunk). -/
def oElse (a b : Option Int) : Option Int :=
  match a with
  | some v => some v
  | none => b

theorem oElse_none_right (a : Option Int) : oElse a none = a := by
  cases a <;> rfl

theorem dictGet?_isSome_iff_any (d : List (String × Int)) (k : String) :
    (d.any fun p => decide (p.1 = k)) = true ↔ (dictGet? d k).isSome := by
  induction d with
  | nil => simp [dictGet?]
  | cons p rest ih =>
    by_cases h : p.1 = k
    · simp [dictGet?, h]
    · simp [dictGet?, h, ih]

theorem dictGet?_mapInsert (d : List (String × Int)) (k : String) (v : Int)
    (k' : String) :
    dictGet? (d.map fun p => if p.1 = k then (k, v) else p) k' =
      if k' = k then (dictGet? d k).map (fun _ => v) else dictGet? d k' := by
  induction d with
  | nil => simp [dictGet?]
  | cons p rest ih =>
    by_cases hp : p.1 = k
    · by_cases hk : k' = k
      · subst hk
        simp [dictGet?, hp]
      · have hk2 : ¬(k = k') := fun hh => hk hh.symm
        have hpk : ¬(p.1 = k') := fun hh => hk (hh ▸ hp)
        simp [dictGet?, hp, hk, hk2, hpk, ih]
    · by_cases hk : k' = k
      · subst hk
        simp [dictGet?, hp, ih]
      · simp [dictGet?, hp, hk, ih]

theorem dictGet?_append (d1 d2 : List (String × Int)) (k : String) :
    dictGet? (d1 ++ d2) k = oElse (dictGet? d1 k) (dictGet? d2 k) := by
  induction d1 with
  | nil => rfl
  | cons p rest ih =>
    show dictGet? (p :: (rest ++ d2)) k = _
    rw [dictGet?, dictGet?]
    by_cases h : p.1 = k
    · rw [if_pos h, if_pos h]; rfl
    · rw [if_neg h, if_neg h, ih]

theorem dictGet?_insert (d : List (String × Int)) (k : String) (v : Int)
    (k' : String) :
    dictGet? (dictInsert d k v) k' =
      if k' = k then some v else dictGet? d k' := by
  rw [dictInsert]
  by_cases hany : (d.any fun p => decide (p.1 = k)) = true
  · rw [if_pos hany, dictGet?_mapInsert]
    by_cases hk : k' = k
    · rw [if_pos hk, if_pos hk]
      obtain ⟨u, hu⟩ := Option.isSome_iff_exists.1
        ((dictGet?_isSome_iff_any d k).1 hany)
      rw [hu]
      rfl
    · rw [if_neg hk, if_neg hk]
  · rw [if_neg hany, dictGet?_append]
    have hnone : dictGet? d k = none := by
      cases hd : dictGet? d k with
      | none => rfl
      | some u =>
        exact absurd ((dictGet?_isSome_iff_any d k).2 (by rw [hd]; rfl)) hany
    by_cases hk : k' = k
    · subst hk
      rw [if_pos rfl, hnone]
      simp [dictGet?, oElse]
    · rw [if_neg hk, dictGet?, if_neg (fun hh : k = k' => hk hh.symm)]
      exact oElse_none_right _

/-- The value that iterating `d[k] = v` over `items` would leave at key `k`:
the last matching entry of `items` wins. -/
def lookupLast : List (String × Int) → String → Option Int
  | [], _ => none
  | p :: rest, k =>
    match lookupLast rest k with
    | some v => some v
    | none => if p.1 = k then some p.2 else none

theorem lookupLast_cons (p : String × Int) (rest : List (String × Int))
    (k : String) :
    lookupLast (p :: rest) k =
      oElse (lookupLast rest k) (if p.1 = k then some p.2 else none) := rfl

theorem dictGet?_update (d items : List (String × Int)) (k : String) :
    dictGet? (dictUpdate d items) k =
      oElse (lookupLast items k) (dictGet? d k) := by
  induction items generalizing d with
  | nil => rfl
  | cons p rest ih =>
    show dictGet? (dictUpdate (dictInsert d p.1 p.2) rest) k = _
    rw [ih, dictGet?_insert, lookupLast_cons]
    cases lookupLast rest k with
    | some v => rfl
    | none =>
      by_cases h : k = p.1
      · rw [if_pos h, if_pos h.symm]
        rfl
      · rw [if_neg h, if_neg (fun hh : p.1 = k => h hh.symm)]
        rfl

theorem noDupKeys_insert {d : List (String × Int)} (h : NoDupKeys d)
    (k : String) (v : Int) : NoDupKeys (dictInsert d k v) := by
  rw [dictInsert]
  by_cases hany : (d.any fun p => decide (p.1 = k)) = true
  · rw [if_pos hany]
    unfold NoDupKeys
    have hkeys : ((d.map fun p => if p.1 = k then (k, v) else p).map Prod.fst)
        = d.map Prod.fst := by
      rw [List.map_map]
      apply List.map_congr_left
      intro p _
      by_cases hp : p.1 = k
      · simp [hp]
      · simp [hp]
    rw [hkeys]
    exact h
  · rw [if_neg hany]
    unfold NoDupKeys
    rw [List.map_append]
    have hk : k ∉ d.map Prod.fst := by
      intro hmem
      obtain ⟨p, hp, hpk⟩ := List.mem_map.1 hmem
      exact hany (List.any_eq_true.2 ⟨p, hp, by simp [hpk]⟩)
    simp only [List.map_cons, List.map_nil]
    rw [List.nodup_append]
    refine ⟨h, List.nodup_singleton k, ?_⟩
    intro a ha hb
    rw [List.mem_singleton.1 hb] at ha
    exact hk ha

theorem noDupKeys_update {d : List (String × Int)} (h : NoDupKeys d)
    (items : List (String × Int)) : NoDupKeys (dictUpdate d items) := by
  induction items generalizing d with
  | nil => exact h
  | cons p rest ih => exact ih (noDupKeys_insert h p.1 p.2)

theorem mem_of_dictGet? {d : List (String × Int)} {k : String} {v : Int}
    (h : dictGet? d k = some v) : (k, v) ∈ d := by
  induction d with
  | nil => exact absurd h (by simp [dictGet?])
  | cons p rest ih =>
    rw [dictGet?] at h
    by_cases hp : p.1 = k
    · rw [if_pos hp] at h
      have : p = (k, v) := by
        rcases p with ⟨a, b⟩
        simp only at hp
        simp only [Option.some.injEq] at h
        rw [hp, h]

      exact this ▸ List.mem_cons_self p rest
    · rw [if_neg hp] at h
      exact List.mem_cons_of_mem p (ih h)

theorem dictGet?_none_of_not_mem_keys {d : List (String × Int)} {k : String}
    (h : k ∉ d.map Prod.fst) : dictGet? d k = none := by
  induction d with
  | nil => rfl
  | cons p rest ih =>
    rw [dictGet?]
    have hp : ¬(p.1 = k) := fun hh => h (by simp [← hh])
    rw [if_neg hp]
    exact ih (fun hh => h (List.mem_cons_of_mem _ hh))

theorem dictGet?_of_mem {d : List (String × Int)} {k : String} {v : Int}
    (hnd : NoDupKeys d) (h : (k, v) ∈ d) : dictGet? d k = some v := by
  induction d with
  | nil => exact absurd h (List.not_mem_nil _)
  | cons p rest ih =>
    unfold NoDupKeys at hnd
    rw [List.map_cons, List.nodup_cons] at hnd
    rcases List.mem_cons.1 h with h1 | h1
    · rw [dictGet?, ← h1]
      rw [if_pos rfl]
    · have hp : ¬(p.1 = k) := by
        intro hh
        exact hnd.1 (hh ▸ List.mem_map.2 ⟨(k, v), h1, rfl⟩)
      rw [dictGet?, if_neg hp]
      exact ih hnd.2 h1

theorem lookupLast_eq_dictGet? {d : List (String × Int)} (hnd : NoDupKeys d)
    (k : String) : lookupLast d k = dictGet? d k := by
  induction d with
  | nil => rfl
  | cons p rest ih =>
    unfold NoDupKeys at hnd
    rw [List.map_cons, List.nodup_cons] at hnd
    rw [lookupLast_cons, ih hnd.2, dictGet?]
    by_cases hp : p.1 = k
    · have : dictGet? rest k = none :=
        dictGet?_none_of_not_mem_keys (hp ▸ hnd.1)
      rw [this, if_pos hp]
      rfl
    · rw [if_neg hp, if_neg hp, oElse_none_right]

/-! ## Derived lookup specifications

`sGet`, `pGet` and `markerKeys` describe, per key, what the surface
builder, the retention filter and the marker writer contribute; they are
proved equal to the corresponding source loops below. -/

/-- `keepBlock w v c`: the retention condition of `process_existing_blocks`
for a block of id `v` at coordinate `c`, where `w` is the `WATER_STILL` id. -/
def keepBlock (w v : Int) (c : Coordinates) : Bool :=
  if v = w then decide (c.y ≤ TARGET_HEIGHT) else decide (c.y < TARGET_HEIGHT)

/-- The retention condition applied to a dict entry (false on a
malformed key). -/
def keptB (w : Int) (p : String × Int) : Bool :=
  match Coordinates.from_string p.1 with
  | some c => keepBlock w p.2 c
  | none => false

/-- What the flat surface holds at key `k`: the grass id `g` exactly at
canonical keys of coordinates at `TARGET_HEIGHT` inside the bounding box. -/
def sGet (bounds : MapBounds) (g : Int) (k : String) : Option Int :=
  match Coordinates.from_string k with
  | some c =>
    if k = Coordinates.to_string c ∧ c.y = TARGET_HEIGHT ∧
        bounds.min_x ≤ c.x ∧ c.x ≤ bounds.max_x ∧
        bounds.min_z ≤ c.z ∧ c.z ≤ bounds.max_z then some g
    else none
  | none => none

/-- What the retention filter holds at key `k`. -/
def pGet (w : Int) (blocks : List (String × Int)) (k : String) : Option Int :=
  match dictGet? blocks k, Coordinates.from_string k with
  | some v, some c => if keepBlock w v c then some v else none
  | _, _ => none

/-- The keys written by `add_center_marker`. -/
def markerKeys (center : Int × Int) : List String :=
  (intRange 1 CENTER_MARKER_HEIGHT).map fun h =>
    Coordinates.to_string ⟨center.1, TARGET_HEIGHT + h, center.2⟩

/-! ## Lemmas: loop ranges -/

theorem mem_intRange {lo hi a : Int} :
    a ∈ intRange lo hi ↔ lo ≤ a ∧ a ≤ hi := by
  unfold intRange
  simp only [List.mem_map, List.mem_range, Int.ofNat_eq_natCast]
  constructor
  · rintro ⟨i, hi1, rfl⟩
    omega
  · rintro ⟨h1, h2⟩
    exact ⟨(a - lo).toNat, by omega, by omega⟩

theorem mem_surfaceCoords {bounds : MapBounds} {c : Coordinates} :
    c ∈ surfaceCoords bounds ↔
      c.y = TARGET_HEIGHT ∧ bounds.min_x ≤ c.x ∧ c.x ≤ bounds.max_x ∧
        bounds.min_z ≤ c.z ∧ c.z ≤ bounds.max_z := by
  unfold surfaceCoords
  simp only [List.mem_flatMap, List.mem_map]
  constructor
  · rintro ⟨x, hx, z, hz, hc⟩
    rcases mem_intRange.1 hx with ⟨h1, h2⟩
    rcases mem_intRange.1 hz with ⟨h3, h4⟩
    subst hc
    exact ⟨rfl, h1, h2, h3, h4⟩
  · rintro ⟨hy, h1, h2, h3, h4⟩
    refine ⟨c.x, mem_intRange.2 ⟨h1, h2⟩, c.z, mem_intRange.2 ⟨h3, h4⟩, ?_⟩
    rw [← hy]

/-! ## Lemmas: the surface builder -/

theorem surfaceAux_ok {bts : List BlockData} {g : Int}
    (hg : getattr bts "GRASS" = Except.ok g) (coords : List Coordinates) :
    ∀ d, surfaceAux bts d coords =
      Except.ok
        (dictUpdate d (coords.map fun c => (Coordinates.to_string c, g))) := by
  induction coords with
  | nil => intro d; rfl
  | cons c rest ih =>
    intro d
    rw [surfaceAux, hg]
    exact ih _

theorem surfaceAux_error {bts : List BlockData} {e : PyError}
    (hg : getattr bts "GRASS" = Except.error e) (d : List (String × Int))
    (c : Coordinates) (rest : List Coordinates) :
    surfaceAux bts d (c :: rest) = Except.error e := by
  rw [surfaceAux, hg]

theorem create_flat_surface_getattr {bounds : MapBounds}
    {bts : List BlockData} {s : List (String × Int)}
    (h : create_flat_surface bounds bts = Except.ok s)
    (hne : surfaceCoords bounds ≠ []) :
    ∃ g, getattr bts "GRASS" = Except.ok g := by
  cases hg : getattr bts "GRASS" with
  | ok g => exact ⟨g, rfl⟩
  | error e =>
    obtain ⟨c, rest, hc⟩ := List.exists_cons_of_ne_nil hne
    rw [create_flat_surface, hc, surfaceAux_error hg] at h
    exact absurd h (by simp)

theorem lookupLast_constMap (g : Int) (k : String)
    (coords : List Coordinates) :
    lookupLast (coords.map fun c => (Coordinates.to_string c, g)) k =
      if coords.any (fun c => decide (Coordinates.to_string c = k)) then some g
      else none := by
  induction coords with
  | nil => rfl
  | cons c rest ih =>
    rw [List.map_cons, lookupLast_cons, ih, List.any_cons]
    by_cases hrest :
        (rest.any fun c => decide (Coordinates.to_string c = k)) = true
    · rw [if_pos hrest, hrest]
      simp [oElse]
    · rw [Bool.not_eq_true] at hrest
      rw [hrest, if_neg (by simp)]
      by_cases hck : Coordinates.to_string c = k
      · simp [hck, oElse]
      · simp [hck, oElse]

theorem dictGet?_surface {bounds : MapBounds} {bts : List BlockData}
    {s : List (String × Int)} {g : Int} (k : String)
    (hg : getattr bts "GRASS" = Except.ok g)
    (hs : create_flat_surface bounds bts = Except.ok s) :
    dictGet? s k = sGet bounds g k := by
  rw [create_flat_surface, surfaceAux_ok hg (surfaceCoords bounds) []] at hs
  have hseq := (Except.ok.inj hs).symm
  rw [hseq, dictGet?_update, lookupLast_constMap]
  have hnil : dictGet? [] k = none := rfl
  rw [hnil, oElse_none_right]
  by_cases hany :
      ((surfaceCoords bounds).any fun c =>
        decide (Coordinates.to_string c = k)) = true
  · rw [if_pos hany]
    obtain ⟨c, hc, hck⟩ := List.any_eq_true.1 hany
    have hck' : Coordinates.to_string c = k := of_decide_eq_true hck
    have hprops := mem_surfaceCoords.1 hc
    rw [sGet, ← hck', from_string_to_string]
    show some g = if Coordinates.to_string c = Coordinates.to_string c ∧
        c.y = TARGET_HEIGHT ∧ bounds.min_x ≤ c.x ∧ c.x ≤ bounds.max_x ∧
        bounds.min_z ≤ c.z ∧ c.z ≤ bounds.max_z then some g else none
    rw [if_pos ⟨rfl, hprops.1, hprops.2.1, hprops.2.2.1, hprops.2.2.2.1,
      hprops.2.2.2.2⟩]
  · rw [if_neg hany, sGet]
    cases hfs : Coordinates.from_string k with
    | none => rfl
    | some c =>
      have hcond : ¬(k = Coordinates.to_string c ∧ c.y = TARGET_HEIGHT ∧
          bounds.min_x ≤ c.x ∧ c.x ≤ bounds.max_x ∧
          bounds.min_z ≤ c.z ∧ c.z ≤ bounds.max_z) := by
        rintro ⟨hkc, hy, h1, h2, h3, h4⟩
        apply hany
        exact List.any_eq_true.2
          ⟨c, mem_surfaceCoords.2 ⟨hy, h1, h2, h3, h4⟩, decide_eq_true hkc.symm⟩
      show none = if k = Coordinates.to_string c ∧ c.y = TARGET_HEIGHT ∧
          bounds.min_x ≤ c.x ∧ c.x ≤ bounds.max_x ∧
          bounds.min_z ≤ c.z ∧ c.z ≤ bounds.max_z then some g else none
      rw [if_neg hcond]

/-! ## Lemmas: the retention filter -/

theorem pebAux_ok {bts : List BlockData} {w : Int}
    (hw : getattr bts "WATER_STILL" = Except.ok w)
    (blocks : List (String × Int))
    (hparse : ∀ p ∈ blocks, (Coordinates.from_string p.1).isSome) :
    ∀ d, pebAux bts d blocks =
      Except.ok (dictUpdate d (blocks.filter (keptB w))) := by
  induction blocks with
  | nil => intro d; rfl
  | cons p rest ih =>
    intro d
    obtain ⟨c, hc⟩ :=
      Option.isSome_iff_exists.1 (hparse p (List.mem_cons_self p rest))
    have hrest : ∀ q ∈ rest, (Coordinates.from_string q.1).isSome :=
      fun q hq => hparse q (List.mem_cons_of_mem p hq)
    simp only [pebAux, keepStep, hc, hw]
    by_cases hvw : p.2 = w
    · by_cases hy : c.y ≤ TARGET_HEIGHT
      · have hkept : keptB w p = true := by
          simpa [keptB, hc, keepBlock, hvw] using hy
        rw [if_pos hvw, if_pos hy, List.filter_cons, if_pos hkept]
        exact ih hrest _
      · have hkept : keptB w p = false := by
          simpa [keptB, hc, keepBlock, hvw] using hy
        rw [if_pos hvw, if_neg hy, List.filter_cons, hkept,
          if_neg Bool.false_ne_true]
        exact ih hrest d
    · by_cases hy : c.y < TARGET_HEIGHT
      · have hkept : keptB w p = true := by
          simpa [keptB, hc, keepBlock, hvw] using hy
        rw [if_neg hvw, if_pos hy, List.filter_cons, if_pos hkept]
        exact ih hrest _
      · have hkept : keptB w p = false := by
          simpa [keptB, hc, keepBlock, hvw] using hy
        rw [if_neg hvw, if_neg hy, List.filter_cons, hkept,
          if_neg Bool.false_ne_true]
        exact ih hrest d

theorem keepStep_error {bts : List BlockData} {e : PyError}
    {p : String × Int} {c : Coordinates}
    (hc : Coordinates.from_string p.1 = some c)
    (hw : getattr bts "WATER_STILL" = Except.error e)
    (d : List (String × Int)) : keepStep bts d p = Except.error e := by
  rw [keepStep, hc, hw]

theorem process_ok_getattr {blocks : List (String × Int)}
    {bts : List BlockData} {prc : List (String × Int)}
    (h : process_existing_blocks blocks bts = Except.ok prc)
    (hne : blocks ≠ [])
    (hparse : ∀ p ∈ blocks, (Coordinates.from_string p.1).isSome) :
    ∃ w, getattr bts "WATER_STILL" = Except.ok w := by
  cases hw : getattr bts "WATER_STILL" with
  | ok w => exact ⟨w, rfl⟩
  | error e =>
    obtain ⟨q, rest, hq⟩ := List.exists_cons_of_ne_nil hne
    subst hq
    obtain ⟨c, hc⟩ :=
      Option.isSome_iff_exists.1 (hparse q (List.mem_cons_self q rest))
    rw [process_existing_blocks, pebAux, keepStep_error hc hw] at h
    simp at h

theorem noDupKeys_filter {w : Int} {blocks : List (String × Int)}
    (hnd : NoDupKeys blocks) : NoDupKeys (blocks.filter (keptB w)) := by
  unfold NoDupKeys at hnd ⊢
  exact hnd.sublist (List.Sublist.map Prod.fst (List.filter_sublist blocks))

theorem dictGet?_filterKept {w : Int} {blocks : List (String × Int)}
    (hnd : NoDupKeys blocks) (k : String) :
    dictGet? (blocks.filter (keptB w)) k =
      match dictGet? blocks k with
      | some v => if keptB w (k, v) then some v else none
      | none => none := by
  induction blocks with
  | nil => rfl
  | cons p rest ih =>
    unfold NoDupKeys at hnd
    rw [List.map_cons, List.nodup_cons] at hnd
    by_cases hp : p.1 = k
    · have hrestf : dictGet? (rest.filter (keptB w)) k = none := by
        apply dictGet?_none_of_not_mem_keys
        intro hmem
        obtain ⟨q, hq, hqk⟩ := List.mem_map.1 hmem
        exact (hp ▸ hnd.1)
          (List.mem_map.2 ⟨q, List.mem_of_mem_filter hq, hqk⟩)
      have hpk : (k, p.2) = p := by
        rcases p with ⟨p1, p2⟩
        simp only at hp
        rw [hp]
      by_cases hkept : keptB w p = true
      · rw [List.filter_cons, if_pos hkept, dictGet?, if_pos hp, dictGet?,
          if_pos hp]
        show some p.2 = if keptB w (k, p.2) then some p.2 else none
        rw [hpk, if_pos hkept]
      · rw [List.filter_cons, if_neg hkept, dictGet?, if_pos hp, hrestf]
        show none = if keptB w (k, p.2) then some p.2 else none
        rw [hpk, if_neg hkept]
    · have htail : dictGet? (rest.filter (keptB w)) k =
          match dictGet? rest k with
          | some v => if keptB w (k, v) then some v else none
          | none => none := ih hnd.2
      by_cases hkept : keptB w p = true
      · rw [List.filter_cons, if_pos hkept, dictGet?, if_neg hp, dictGet?,
          if_neg hp, htail]
      · rw [List.filter_cons, if_neg hkept, dictGet?, if_neg hp, htail]

theorem dictGet?_process {blocks : List (String × Int)} {bts : List BlockData}
    {w : Int} {prc : List (String × Int)} (k : String)
    (hw : getattr bts "WATER_STILL" = Except.ok w)
    (hparse : ∀ p ∈ blocks, (Coordinates.from_string p.1).isSome)
    (hnd : NoDupKeys blocks)
    (hp : process_existing_blocks blocks bts = Except.ok prc) :
    dictGet? prc k = pGet w blocks k := by
  rw [process_existing_blocks, pebAux_ok hw blocks hparse []] at hp
  have hprc : prc = dictUpdate [] (blocks.filter (keptB w)) :=
    (Except.ok.inj hp).symm
  rw [hprc, dictGet?_update,
    lookupLast_eq_dictGet? (noDupKeys_filter hnd),
    dictGet?_filterKept hnd]
  have hnil : dictGet? [] k = none := rfl
  rw [hnil, oElse_none_right, pGet]
  cases hbk : dictGet? blocks k with
  | none => rfl
  | some v =>
    cases hfs : Coordinates.from_string k with
    | some c =>
      show (if keptB w (k, v) then some v else none) = _
      rw [keptB, hfs]
    | none =>
      show (if keptB w (k, v) then some v else none) = _
      rw [keptB, hfs]
      rfl

/-! ## Lemmas: the center marker -/

theorem intRange_marker : intRange 1 CENTER_MARKER_HEIGHT = [1, 2] := by
  decide

theorem add_center_marker_ok {bts : List BlockData} {sb : Int}
    (hsb : getattr bts "STONE_BRICKS" = Except.ok sb)
    (d : List (String × Int)) (center : Int × Int) :
    add_center_marker d center bts =
      Except.ok
        (dictInsert
          (dictInsert d
            (Coordinates.to_string ⟨center.1, TARGET_HEIGHT + 1, center.2⟩) sb)
          (Coordinates.to_string ⟨center.1, TARGET_HEIGHT + 2, center.2⟩)
          sb) := by
  simp [add_center_marker, intRange_marker, markerAux, hsb]

theorem add_center_marker_getattr {bts : List BlockData}
    {d out : List (String × Int)} {center : Int × Int}
    (h : add_center_marker d center bts = Except.ok out) :
    ∃ sb, getattr bts "STONE_BRICKS" = Except.ok sb := by
  cases hsb : getattr bts "STONE_BRICKS" with
  | ok sb => exact ⟨sb, rfl⟩
  | error e =>
    rw [add_center_marker, intRange_marker, markerAux, hsb] at h
    simp at h

theorem mem_markerKeys {center : Int × Int} {k : String} :
    k ∈ markerKeys center ↔
      ∃ h : Int, 1 ≤ h ∧ h ≤ CENTER_MARKER_HEIGHT ∧
        k = Coordinates.to_string ⟨center.1, TARGET_HEIGHT + h, center.2⟩ := by
  unfold markerKeys
  simp only [List.mem_map]
  constructor
  · rintro ⟨h, hh, rfl⟩
    rcases mem_intRange.1 hh with ⟨h1, h2⟩
    exact ⟨h, h1, h2, rfl⟩
  · rintro ⟨h, h1, h2, rfl⟩
    exact ⟨h, mem_intRange.2 ⟨h1, h2⟩, rfl⟩

/-! ## Lemmas: folded min/max over a list of integers -/

theorem foldl_min_le_init (l : List Int) (a : Int) : l.foldl min a ≤ a := by
  induction l generalizing a with
  | nil => exact le_refl a
  | cons x xs ih => exact le_trans (ih (min a x)) (min_le_left a x)

theorem foldl_min_le {l : List Int} {x : Int} (hx : x ∈ l) (a : Int) :
    l.foldl min a ≤ x := by
  induction l generalizing a with
  | nil => cases hx
  | cons y ys ih =>
    rcases List.mem_cons.1 hx with h | h
    · subst h
      exact le_trans (foldl_min_le_init ys (min a x)) (min_le_right a x)
    · exact ih h (min a y)

theorem foldl_min_mem (l : List Int) (a : Int) :
    l.foldl min a = a ∨ l.foldl min a ∈ l := by
  induction l generalizing a with
  | nil => left; rfl
  | cons x xs ih =>
    rcases ih (min a x) with h | h
    · rcases min_choice a x with h2 | h2
      · left
        show xs.foldl min (min a x) = a
        rw [h, h2]
      · right
        show xs.foldl min (min a x) ∈ x :: xs
        rw [h, h2]
        exact List.mem_cons_self x xs
    · right
      show xs.foldl min (min a x) ∈ x :: xs
      exact List.mem_cons_of_mem x h

theorem foldl_max_init_le (l : List Int) (a : Int) : a ≤ l.foldl max a := by
  induction l generalizing a with
  | nil => exact le_refl a
  | cons x xs ih => exact le_trans (le_max_left a x) (ih (max a x))

theorem foldl_max_le {l : List Int} {x : Int} (hx : x ∈ l) (a : Int) :
    x ≤ l.foldl max a := by
  induction l generalizing a with
  | nil => cases hx
  | cons y ys ih =>
    rcases List.mem_cons.1 hx with h | h
    · subst h
      exact le_trans (le_max_right a x) (foldl_max_init_le ys (max a x))
    · exact ih h (max a y)

theorem foldl_max_mem (l : List Int) (a : Int) :
    l.foldl max a = a ∨ l.foldl max a ∈ l := by
  induction l generalizing a with
  | nil => left; rfl
  | cons x xs ih =>
    rcases ih (max a x) with h | h
    · rcases max_choice a x with h2 | h2
      · left
        show xs.foldl max (max a x) = a
        rw [h, h2]
      · right
        show xs.foldl max (max a x) ∈ x :: xs
        rw [h, h2]
        exact List.mem_cons_self x xs
    · right
      show xs.foldl max (max a x) ∈ x :: xs
      exact List.mem_cons_of_mem x h

/-! ## Lemmas: `parseKeys` and `get_map_bounds` -/

theorem parseKeys_isSome {blocks : List (String × Int)}
    {cs : List Coordinates} (h : parseKeys blocks = Except.ok cs) :
    ∀ p ∈ blocks, (Coordinates.from_string p.1).isSome := by
  induction blocks generalizing cs with
  | nil => intro p hp; cases hp
  | cons q rest ih =>
    rw [parseKeys] at h
    cases hq : Coordinates.from_string q.1 with
    | none => rw [hq] at h; simp at h
    | some c =>
      rw [hq] at h
      intro p hp
      rcases List.mem_cons.1 hp with h1 | h1
      · rw [h1, hq]; rfl
      · cases hr : parseKeys rest with
        | error e => rw [hr] at h; simp [Except.map] at h
        | ok cs' => exact ih hr p h1

theorem parseKeys_mem_fwd {blocks : List (String × Int)}
    {cs : List Coordinates} (h : parseKeys blocks = Except.ok cs) :
    ∀ p ∈ blocks, ∃ c ∈ cs, Coordinates.from_string p.1 = some c := by
  induction blocks generalizing cs with
  | nil => intro p hp; cases hp
  | cons q rest ih =>
    rw [parseKeys] at h
    cases hq : Coordinates.from_string q.1 with
    | none => rw [hq] at h; simp at h
    | some c =>
      rw [hq] at h
      cases hr : parseKeys rest with
      | error e => rw [hr] at h; simp [Except.map] at h
      | ok cs' =>
        rw [hr] at h
        have hcs : cs = c :: cs' := by
          simp only [Except.map] at h
          exact (Except.ok.inj h).symm
        subst hcs
        intro p hp
        rcases List.mem_cons.1 hp with h1 | h1
        · exact ⟨c, List.mem_cons_self c cs', h1 ▸ hq⟩
        · obtain ⟨c', hc', hpc'⟩ := ih hr p h1
          exact ⟨c', List.mem_cons_of_mem c hc', hpc'⟩

theorem parseKeys_mem_bwd {blocks : List (String × Int)}
    {cs : List Coordinates} (h : parseKeys blocks = Except.ok cs) :
    ∀ c ∈ cs, ∃ p ∈ blocks, Coordinates.from_string p.1 = some c := by
  induction blocks generalizing cs with
  | nil =>
    rw [parseKeys] at h
    have hcs : cs = [] := (Except.ok.inj h).symm
    subst hcs
    intro c hc
    cases hc
  | cons q rest ih =>
    rw [parseKeys] at h
    cases hq : Coordinates.from_string q.1 with
    | none => rw [hq] at h; simp at h
    | some c0 =>
      rw [hq] at h
      cases hr : parseKeys rest with
      | error e => rw [hr] at h; simp [Except.map] at h
      | ok cs' =>
        rw [hr] at h
        have hcs : cs = c0 :: cs' := by
          simp only [Except.map] at h
          exact (Except.ok.inj h).symm
        subst hcs
        intro c hc
        rcases List.mem_cons.1 hc with h1 | h1
        · exact ⟨q, List.mem_cons_self q rest, h1 ▸ hq⟩
        · obtain ⟨p, hp, hpc⟩ := ih hr c h1
          exact ⟨p, List.mem_cons_of_mem q hp, hpc⟩

theorem parseKeys_total {blocks : List (String × Int)}
    (hparse : ∀ p ∈ blocks, (Coordinates.from_string p.1).isSome) :
    ∃ cs, parseKeys blocks = Except.ok cs := by
  induction blocks with
  | nil => exact ⟨[], rfl⟩
  | cons q rest ih =>
    obtain ⟨c, hc⟩ :=
      Option.isSome_iff_exists.1 (hparse q (List.mem_cons_self q rest))
    obtain ⟨cs, hcs⟩ := ih (fun p hp => hparse p (List.mem_cons_of_mem q hp))
    refine ⟨c :: cs, ?_⟩
    rw [parseKeys, hc, hcs]
    rfl

theorem parseKeys_nil_of {blocks : List (String × Int)}
    (h : parseKeys blocks = Except.ok []) : blocks = [] := by
  cases blocks with
  | nil => rfl
  | cons q rest =>
    obtain ⟨c, hc, _⟩ := parseKeys_mem_fwd h q (List.mem_cons_self q rest)
    cases hc

/-- Everything `get_map_bounds` guarantees about a successful result:
every key parses and lies inside the bounds, each of the four bounds is
attained, and the mapping is nonempty. -/
theorem get_map_bounds_char {blocks : List (String × Int)}
    {bounds : MapBounds} (h : get_map_bounds blocks = Except.ok bounds) :
    blocks ≠ [] ∧
      (∀ p ∈ blocks, ∃ c, Coordinates.from_string p.1 = some c ∧
        bounds.min_x ≤ c.x ∧ c.x ≤ bounds.max_x ∧
        bounds.min_z ≤ c.z ∧ c.z ≤ bounds.max_z) ∧
      (∃ p ∈ blocks, ∃ c, Coordinates.from_string p.1 = some c ∧
        c.x = bounds.min_x) ∧
      (∃ p ∈ blocks, ∃ c, Coordinates.from_string p.1 = some c ∧
        c.x = bounds.max_x) ∧
      (∃ p ∈ blocks, ∃ c, Coordinates.from_string p.1 = some c ∧
        c.z = bounds.min_z) ∧
      (∃ p ∈ blocks, ∃ c, Coordinates.from_string p.1 = some c ∧
        c.z = bounds.max_z) := by
  rw [get_map_bounds] at h
  cases hpk : parseKeys blocks with
  | error e => rw [hpk] at h; simp at h
  | ok cs =>
    rw [hpk] at h
    cases cs with
    | nil => simp at h
    | cons c0 cs' =>
      have hb : bounds =
          { min_x := cs'.foldl (fun m c' => min m c'.x) c0.x
            max_x := cs'.foldl (fun m c' => max m c'.x) c0.x
            min_z := cs'.foldl (fun m c' => min m c'.z) c0.z
            max_z := cs'.foldl (fun m c' => max m c'.z) c0.z } :=
        (Except.ok.inj h).symm
      have hxfold : ∀ a : Int, cs'.foldl (fun m c' => min m c'.x) a =
          (cs'.map Coordinates.x).foldl min a := fun a =>
        (List.foldl_map Coordinates.x min cs' a).symm
      have hXfold : ∀ a : Int, cs'.foldl (fun m c' => max m c'.x) a =
          (cs'.map Coordinates.x).foldl max a := fun a =>
        (List.foldl_map Coordinates.x max cs' a).symm
      have hzfold : ∀ a : Int, cs'.foldl (fun m c' => min m c'.z) a =
          (cs'.map Coordinates.z).foldl min a := fun a =>
        (List.foldl_map Coordinates.z min cs' a).symm
      have hZfold : ∀ a : Int, cs'.foldl (fun m c' => max m c'.z) a =
          (cs'.map Coordinates.z).foldl max a := fun a =>
        (List.foldl_map Coordinates.z max cs' a).symm
      have hcmem : ∀ c ∈ c0 :: cs',
          bounds.min_x ≤ c.x ∧ c.x ≤ bounds.max_x ∧
          bounds.min_z ≤ c.z ∧ c.z ≤ bounds.max_z := by
        intro c hc
        rw [hb]
        simp only
        rw [hxfold, hXfold, hzfold, hZfold]
        rcases List.mem_cons.1 hc with h1 | h1
        · subst h1
          exact ⟨foldl_min_le_init _ _, foldl_max_init_le _ _,
            foldl_min_le_init _ _, foldl_max_init_le _ _⟩
        · exact ⟨foldl_min_le (List.mem_map.2 ⟨c, h1, rfl⟩) _,
            foldl_max_le (List.mem_map.2 ⟨c, h1, rfl⟩) _,
            foldl_min_le (List.mem_map.2 ⟨c, h1, rfl⟩) _,
            foldl_max_le (List.mem_map.2 ⟨c, h1, rfl⟩) _⟩
      have hne : blocks ≠ [] := by
        intro hnil
        subst hnil
        rw [parseKeys] at hpk
        exact absurd (Except.ok.inj hpk) (by simp)
      refine ⟨hne, ?_, ?_, ?_, ?_, ?_⟩
      · intro p hp
        obtain ⟨c, hcmem', hpc⟩ := parseKeys_mem_fwd hpk p hp
        exact ⟨c, hpc, hcmem c hcmem'⟩
      · have : bounds.min_x = c0.x ∨
            bounds.min_x ∈ cs'.map Coordinates.x := by
          rw [hb]; simp only; rw [hxfold]; exact foldl_min_mem _ _
        rcases this with h1 | h1
        · obtain ⟨p, hp, hpc⟩ :=
            parseKeys_mem_bwd hpk c0 (List.mem_cons_self c0 cs')
          exact ⟨p, hp, c0, hpc, h1.symm⟩
        · obtain ⟨c, hc, hcx⟩ := List.mem_map.1 h1
          obtain ⟨p, hp, hpc⟩ :=
            parseKeys_mem_bwd hpk c (List.mem_cons_of_mem c0 hc)
          exact ⟨p, hp, c, hpc, hcx⟩
      · have : bounds.max_x = c0.x ∨
            bounds.max_x ∈ cs'.map Coordinates.x := by
          rw [hb]; simp only; rw [hXfold]; exact foldl_max_mem _ _
        rcases this with h1 | h1
        · obtain ⟨p, hp, hpc⟩ :=
            parseKeys_mem_bwd hpk c0 (List.mem_cons_self c0 cs')
          exact ⟨p, hp, c0, hpc, h1.symm⟩
        · obtain ⟨c, hc, hcx⟩ := List.mem_map.1 h1
          obtain ⟨p, hp, hpc⟩ :=
            parseKeys_mem_bwd hpk c (List.mem_cons_of_mem c0 hc)
          exact ⟨p, hp, c, hpc, hcx⟩
      · have : bounds.min_z = c0.z ∨
            bounds.min_z ∈ cs'.map Coordinates.z := by
          rw [hb]; simp only; rw [hzfold]; exact foldl_min_mem _ _
        rcases this with h1 | h1
        · obtain ⟨p, hp, hpc⟩ :=
            parseKeys_mem_bwd hpk c0 (List.mem_cons_self c0 cs')
          exact ⟨p, hp, c0, hpc, h1.symm⟩
        · obtain ⟨c, hc, hcz⟩ := List.mem_map.1 h1
          obtain ⟨p, hp, hpc⟩ :=
            parseKeys_mem_bwd hpk c (List.mem_cons_of_mem c0 hc)
          exact ⟨p, hp, c, hpc, hcz⟩
      · have : bounds.max_z = c0.z ∨
            bounds.max_z ∈ cs'.map Coordinates.z := by
          rw [hb]; simp only; rw [hZfold]; exact foldl_max_mem _ _
        rcases this with h1 | h1
        · obtain ⟨p, hp, hpc⟩ :=
            parseKeys_mem_bwd hpk c0 (List.mem_cons_self c0 cs')
          exact ⟨p, hp, c0, hpc, h1.symm⟩
        · obtain ⟨c, hc, hcz⟩ := List.mem_map.1 h1
          obtain ⟨p, hp, hpc⟩ :=
            parseKeys_mem_bwd hpk c (List.mem_cons_of_mem c0 hc)
          exact ⟨p, hp, c, hpc, hcz⟩

theorem get_map_bounds_total {blocks : List (String × Int)}
    (hne : blocks ≠ [])
    (hparse : ∀ p ∈ blocks, (Coordinates.from_string p.1).isSome) :
    ∃ bounds, get_map_bounds blocks = Except.ok bounds := by
  obtain ⟨cs, hcs⟩ := parseKeys_total hparse
  cases cs with
  | nil => exact absurd (parseKeys_nil_of hcs) hne
  | cons c0 cs' =>
    rw [get_map_bounds, hcs]
    exact ⟨_, rfl⟩

/-- The bounds are determined by range plus attainment: if every parsed
coordinate lies in the box `[a,b] × [zc,zd]` and each side is attained,
a successful `get_map_bounds` returns exactly that box. -/
theorem get_map_bounds_eq {blocks : List (String × Int)} {bounds : MapBounds}
    {a b zc zd : Int} (h : get_map_bounds blocks = Except.ok bounds)
    (hall : ∀ p ∈ blocks, ∀ c, Coordinates.from_string p.1 = some c →
      a ≤ c.x ∧ c.x ≤ b ∧ zc ≤ c.z ∧ c.z ≤ zd)
    (hax : ∃ p ∈ blocks, ∃ c, Coordinates.from_string p.1 = some c ∧ c.x = a)
    (hbx : ∃ p ∈ blocks, ∃ c, Coordinates.from_string p.1 = some c ∧ c.x = b)
    (hcz : ∃ p ∈ blocks, ∃ c, Coordinates.from_string p.1 = some c ∧ c.z = zc)
    (hdz : ∃ p ∈ blocks, ∃ c, Coordinates.from_string p.1 = some c ∧ c.z = zd) :
    bounds = ⟨a, b, zc, zd⟩ := by
  obtain ⟨-, hrange, hminx, hmaxx, hminz, hmaxz⟩ := get_map_bounds_char h
  have e1 : bounds.min_x = a := by
    obtain ⟨p1, hp1, c1, hc1, he1⟩ := hminx
    obtain ⟨pa, hpa, ca, hca, hea⟩ := hax
    obtain ⟨ca', hca', hra⟩ := hrange pa hpa
    have heq : ca' = ca := by
      rw [hca] at hca'
      exact (Option.some.inj hca').symm
    subst heq
    have h1 : bounds.min_x ≤ a := hea ▸ hra.1
    have h2 : a ≤ bounds.min_x := he1 ▸ (hall p1 hp1 c1 hc1).1
    omega
  have e2 : bounds.max_x = b := by
    obtain ⟨p1, hp1, c1, hc1, he1⟩ := hmaxx
    obtain ⟨pa, hpa, ca, hca, hea⟩ := hbx
    obtain ⟨ca', hca', hra⟩ := hrange pa hpa
    have heq : ca' = ca := by
      rw [hca] at hca'
      exact (Option.some.inj hca').symm
    subst heq
    have h1 : b ≤ bounds.max_x := hea ▸ hra.2.1
    have h2 : bounds.max_x ≤ b := he1 ▸ (hall p1 hp1 c1 hc1).2.1
    omega
  have e3 : bounds.min_z = zc := by
    obtain ⟨p1, hp1, c1, hc1, he1⟩ := hminz
    obtain ⟨pa, hpa, ca, hca, hea⟩ := hcz
    obtain ⟨ca', hca', hra⟩ := hrange pa hpa
    have heq : ca' = ca := by
      rw [hca] at hca'
      exact (Option.some.inj hca').symm
    subst heq
    have h1 : bounds.min_z ≤ zc := hea ▸ hra.2.2.1
    have h2 : zc ≤ bounds.min_z := he1 ▸ (hall p1 hp1 c1 hc1).2.2.1
    omega
  have e4 : bounds.max_z = zd := by
    obtain ⟨p1, hp1, c1, hc1, he1⟩ := hmaxz
    obtain ⟨pa, hpa, ca, hca, hea⟩ := hdz
    obtain ⟨ca', hca', hra⟩ := hrange pa hpa
    have heq : ca' = ca := by
      rw [hca] at hca'
      exact (Option.some.inj hca').symm
    subst heq
    have h1 : zd ≤ bounds.max_z := hea ▸ hra.2.2.2
    have h2 : bounds.max_z ≤ zd := he1 ▸ (hall p1 hp1 c1 hc1).2.2.2
    omega
  rcases bounds with ⟨b1, b2, b3, b4⟩
  simp only at e1 e2 e3 e4
  rw [e1, e2, e3, e4]

/-! ## The per-key specification of the whole transform -/

/-- Per-key content of the transform output: the marker wins at marker
keys, then the retained blocks, then the generated surface. -/
def outSpec (bounds : MapBounds) (g w sb : Int)
    (blocks : List (String × Int)) (k : String) : Option Int :=
  if k ∈ markerKeys bounds.center then some sb
  else oElse (pGet w blocks k) (sGet bounds g k)

theorem markerKeys_eq (center : Int × Int) :
    markerKeys center =
      [Coordinates.to_string ⟨center.1, TARGET_HEIGHT + 1, center.2⟩,
        Coordinates.to_string ⟨center.1, TARGET_HEIGHT + 2, center.2⟩] := by
  rw [markerKeys, intRange_marker]
  rfl

theorem center_bounds {a b : Int} (h : a ≤ b) :
    a ≤ (a + b).fdiv 2 ∧ (a + b).fdiv 2 ≤ b := by
  have h2 : (a + b).fdiv 2 = (a + b) / 2 := Int.fdiv_eq_ediv _ (by omega)
  rw [h2]
  omega

theorem sGet_eq_some {bounds : MapBounds} {g : Int} {k : String} {u : Int}
    (h : sGet bounds g k = some u) :
    u = g ∧ ∃ c, Coordinates.from_string k = some c ∧
      k = Coordinates.to_string c ∧ c.y = TARGET_HEIGHT ∧
      bounds.min_x ≤ c.x ∧ c.x ≤ bounds.max_x ∧
      bounds.min_z ≤ c.z ∧ c.z ≤ bounds.max_z := by
  cases hfs : Coordinates.from_string k with
  | none => simp [sGet, hfs] at h
  | some c =>
    simp only [sGet, hfs] at h
    by_cases hcond : k = Coordinates.to_string c ∧ c.y = TARGET_HEIGHT ∧
        bounds.min_x ≤ c.x ∧ c.x ≤ bounds.max_x ∧
        bounds.min_z ≤ c.z ∧ c.z ≤ bounds.max_z
    · rw [if_pos hcond] at h
      exact ⟨(Option.some.inj h).symm, c, rfl, hcond.1, hcond.2.1,
        hcond.2.2.1, hcond.2.2.2.1, hcond.2.2.2.2.1, hcond.2.2.2.2.2⟩
    · rw [if_neg hcond] at h
      simp at h

theorem sGet_of_conds {bounds : MapBounds} {g : Int} {c : Coordinates}
    (hy : c.y = TARGET_HEIGHT) (h1 : bounds.min_x ≤ c.x)
    (h2 : c.x ≤ bounds.max_x) (h3 : bounds.min_z ≤ c.z)
    (h4 : c.z ≤ bounds.max_z) :
    sGet bounds g (Coordinates.to_string c) = some g := by
  rw [sGet, from_string_to_string]
  show (if Coordinates.to_string c = Coordinates.to_string c ∧
      c.y = TARGET_HEIGHT ∧ bounds.min_x ≤ c.x ∧ c.x ≤ bounds.max_x ∧
      bounds.min_z ≤ c.z ∧ c.z ≤ bounds.max_z then some g else none) = some g
  rw [if_pos ⟨rfl, hy, h1, h2, h3, h4⟩]

theorem pGet_eq_some {w : Int} {blocks : List (String × Int)} {k : String}
    {v : Int} (h : pGet w blocks k = some v) :
    dictGet? blocks k = some v ∧
      ∃ c, Coordinates.from_string k = some c ∧ keepBlock w v c = true := by
  cases hbk : dictGet? blocks k with
  | none => simp [pGet, hbk] at h
  | some v' =>
    cases hfs : Coordinates.from_string k with
    | none => simp [pGet, hbk, hfs] at h
    | some c =>
      simp only [pGet, hbk, hfs] at h
      by_cases hkeep : keepBlock w v' c = true
      · rw [if_pos hkeep] at h
        have hv : v' = v := Option.some.inj h
        subst hv
        exact ⟨rfl, c, rfl, hkeep⟩
      · rw [if_neg hkeep] at h
        simp at h

/-- Master characterization of `runTransform`: when the pipeline succeeds
on a well-formed dict, every semantic lookup succeeded and the output dict
agrees pointwise with `outSpec`. -/
theorem runTransform_spec {md : MapData} {out : List (String × Int)}
    (hnd : NoDupKeys md.blocks)
    (h : runTransform md = Except.ok out) :
    ∃ bounds g w sb,
      get_map_bounds md.blocks = Except.ok bounds ∧
      getattr md.blockTypes "GRASS" = Except.ok g ∧
      getattr md.blockTypes "WATER_STILL" = Except.ok w ∧
      getattr md.blockTypes "STONE_BRICKS" = Except.ok sb ∧
      NoDupKeys out ∧
      (∀ k, dictGet? out k = outSpec bounds g w sb md.blocks k) := by
  rw [runTransform] at h
  cases hb : get_map_bounds md.blocks with
  | error e => simp [hb] at h
  | ok bounds =>
    simp only [hb] at h
    cases hs : create_flat_surface bounds md.blockTypes with
    | error e => simp [hs] at h
    | ok surface =>
      simp only [hs] at h
      cases hpr : process_existing_blocks md.blocks md.blockTypes with
      | error e => simp [hpr] at h
      | ok underground =>
        simp only [hpr] at h
        obtain ⟨hne, hrange, hminx, hmaxx, hminz, hmaxz⟩ :=
          get_map_bounds_char hb
        have hparse : ∀ p ∈ md.blocks,
            (Coordinates.from_string p.1).isSome := by
          intro p hp
          obtain ⟨c, hc, -⟩ := hrange p hp
          rw [hc]
          rfl
        have hbox : bounds.min_x ≤ bounds.max_x ∧
            bounds.min_z ≤ bounds.max_z := by
          obtain ⟨q, rest, hq⟩ := List.exists_cons_of_ne_nil hne
          obtain ⟨c, -, hcr⟩ := hrange q (hq ▸ List.mem_cons_self q rest)
          omega
        have hsurfne : surfaceCoords bounds ≠ [] := by
          intro hnil
          have hmem : (⟨bounds.min_x, TARGET_HEIGHT, bounds.min_z⟩ :
              Coordinates) ∈ surfaceCoords bounds :=
            mem_surfaceCoords.2 ⟨rfl, le_refl _, hbox.1, le_refl _, hbox.2⟩
          rw [hnil] at hmem
          cases hmem
        obtain ⟨g, hg⟩ := create_flat_surface_getattr hs hsurfne
        obtain ⟨w, hw⟩ := process_ok_getattr hpr hne hparse
        obtain ⟨sb, hsb⟩ := add_center_marker_getattr h
        rw [add_center_marker_ok hsb _ _] at h
        have hout : out =
            dictInsert
              (dictInsert (dictUpdate surface underground)
                (Coordinates.to_string
                  ⟨bounds.center.1, TARGET_HEIGHT + 1, bounds.center.2⟩) sb)
              (Coordinates.to_string
                ⟨bounds.center.1, TARGET_HEIGHT + 2, bounds.center.2⟩) sb :=
          (Except.ok.inj h).symm
        have hnds : NoDupKeys surface := by
          rw [create_flat_surface, surfaceAux_ok hg _ []] at hs
          rw [← Except.ok.inj hs]
          exact noDupKeys_update (show NoDupKeys [] from List.nodup_nil) _
        have hndu : NoDupKeys underground := by
          rw [process_existing_blocks,
            pebAux_ok hw md.blocks hparse []] at hpr
          rw [← Except.ok.inj hpr]
          exact noDupKeys_update (show NoDupKeys [] from List.nodup_nil) _
        refine ⟨bounds, g, w, sb, rfl, hg, hw, hsb, ?_, ?_⟩
        · rw [hout]
          exact noDupKeys_insert
            (noDupKeys_insert (noDupKeys_update hnds underground) _ _) _ _
        · intro k
          rw [hout, dictGet?_insert, dictGet?_insert, dictGet?_update,
            lookupLast_eq_dictGet? hndu,
            dictGet?_process k hw hparse hnd hpr,
            dictGet?_surface k hg hs, outSpec, markerKeys_eq]
          by_cases h2 : k = Coordinates.to_string
              ⟨bounds.center.1, TARGET_HEIGHT + 2, bounds.center.2⟩
          · rw [if_pos h2, if_pos (by rw [h2]; simp)]
          · rw [if_neg h2]
            by_cases h1 : k = Coordinates.to_string
                ⟨bounds.center.1, TARGET_HEIGHT + 1, bounds.center.2⟩
            · rw [if_pos h1, if_pos (by rw [h1]; simp)]
            · rw [if_neg h1, if_neg (by simp [List.mem_cons, h1, h2])]

/-! ## Concrete fixtures -/

/-- A minimal block-type table carrying the three semantic names. -/
def bts0 : List BlockData :=
  [⟨1, "grass", "blocks/grass.png", false⟩,
    ⟨2, "water-still", "blocks/water-still.png", true⟩,
    ⟨3, "stone-bricks", "blocks/stone-bricks.png", false⟩]

/-- A document with a single water-still block at the target height. -/
def md0 : MapData := ⟨bts0, [("0,0,0", 2)]⟩

/-- `bts0` extended with a second liquid-flagged type, "lava" (id 4). -/
def bts1 : List BlockData := bts0 ++ [⟨4, "lava", "blocks/lava.png", true⟩]

/-- A document with a single lava block at the target height. -/
def md1 : MapData := ⟨bts1, [("0,0,0", 4)]⟩

/-! ## Claims -/

/-- C7: coordinate round-trip.  Serializing any integer triple (x, y, z),
negative components included, to the string "x,y,z" and parsing it back
yields the same triple; consequently parsing a well-formed (serialized)
coordinate string and re-serializing reproduces the original string
exactly. -/
theorem C7_coordinate_roundtrip :
    (∀ x y z : Int,
      Coordinates.from_string (Coordinates.to_string ⟨x, y, z⟩) =
        some ⟨x, y, z⟩) ∧
    (∀ s : String, (∃ c : Coordinates, s = Coordinates.to_string c) →
      ∃ c : Coordinates, Coordinates.from_string s = some c ∧
        Coordinates.to_string c = s) := by
  constructor
  · intro x y z
    exact from_string_to_string ⟨x, y, z⟩
  · rintro s ⟨c, rfl⟩
    exact ⟨c, from_string_to_string c, rfl⟩

/-- C7 witness: the round-trip at the concrete triple (-3, 0, 7). -/
theorem C7_coordinate_roundtrip_witness :
    Coordinates.from_string (Coordinates.to_string ⟨-3, 0, 7⟩) =
      some ⟨-3, 0, 7⟩ ∧
    Coordinates.to_string ⟨-3, 0, 7⟩ = "-3,0,7" :=
  ⟨C7_coordinate_roundtrip.1 (-3) 0 7, by decide⟩

/-- C4 (code bug): on an empty block mapping, `get_map_bounds` fails with
the `ValueError` coming from `min()` over an empty sequence — the crash
the spec says must not happen — rather than an explicit undefined-bounds
error: the code has no empty-mapping check at all. -/
theorem C4_empty_bounds_crashes_in_min :
    get_map_bounds [] = Except.error PyError.emptySeqMin := rfl

/-- C1 (counterexample): with a water-still block (id 2) at "0,0,0" and
target height 0, the retention filter keeps "0,0,0" (water at
y = 0 ≤ target) while the surface builder also emits "0,0,0": the two key
sets are not disjoint. -/
theorem C1_cex :
    get_map_bounds md0.blocks = Except.ok ⟨0, 0, 0, 0⟩ ∧
    create_flat_surface ⟨0, 0, 0, 0⟩ md0.blockTypes =
      Except.ok [("0,0,0", 1)] ∧
    process_existing_blocks md0.blocks md0.blockTypes =
      Except.ok [("0,0,0", 2)] ∧
    (dictGet? [(("0,0,0" : String), (1 : Int))] "0,0,0").isSome = true ∧
    (dictGet? [(("0,0,0" : String), (2 : Int))] "0,0,0").isSome = true := by
  refine ⟨rfl, rfl, rfl, rfl, rfl⟩

/-- C1 (amended): a key can be both emitted by the surface builder and
retained by the retention filter, but only when it parses to a coordinate
at exactly the target height and its retained value is the WATER_STILL id
— retained keys with y < target height never collide with the surface. -/
theorem C1_amended (blocks : List (String × Int)) (bts : List BlockData)
    (bounds : MapBounds) (s p : List (String × Int)) (k : String)
    (u v g w : Int)
    (hb : get_map_bounds blocks = Except.ok bounds)
    (hg : getattr bts "GRASS" = Except.ok g)
    (hw : getattr bts "WATER_STILL" = Except.ok w)
    (hnd : NoDupKeys blocks)
    (hs : create_flat_surface bounds bts = Except.ok s)
    (hp : process_existing_blocks blocks bts = Except.ok p)
    (hu : dictGet? s k = some u)
    (hv : dictGet? p k = some v) :
    ∃ c, Coordinates.from_string k = some c ∧ c.y = TARGET_HEIGHT ∧
      v = w := by
  have hparse : ∀ q ∈ blocks, (Coordinates.from_string q.1).isSome := by
    intro q hq
    obtain ⟨c, hc, -⟩ := (get_map_bounds_char hb).2.1 q hq
    rw [hc]
    rfl
  rw [dictGet?_surface k hg hs] at hu
  rw [dictGet?_process k hw hparse hnd hp] at hv
  obtain ⟨-, c, hck, -, hy, -⟩ := sGet_eq_some hu
  obtain ⟨-, c', hc', hkeep⟩ := pGet_eq_some hv
  have hcc : c' = c := by
    rw [hck] at hc'
    exact (Option.some.inj hc').symm
  subst hcc
  refine ⟨c', hck, hy, ?_⟩
  by_cases hvw : v = w
  · exact hvw
  · rw [keepBlock, if_neg hvw, hy] at hkeep
    exact absurd (of_decide_eq_true hkeep) (lt_irrefl _)

/-- C1 amended witness: the collision of `C1_cex` indeed parses to
y = target height with the water-still value. -/
theorem C1_amended_witness :
    ∃ c, Coordinates.from_string "0,0,0" = some c ∧
      c.y = TARGET_HEIGHT ∧ (2 : Int) = 2 :=
  C1_amended md0.blocks md0.blockTypes ⟨0, 0, 0, 0⟩ [("0,0,0", 1)]
    [("0,0,0", 2)] "0,0,0" 1 2 1 2 rfl rfl rfl
    (by unfold NoDupKeys; decide) rfl rfl rfl rfl

/-- C2 (counterexample): "lava" (id 4) is flagged liquid in the table but
its id differs from the WATER_STILL id; at y = 0 ≤ target height the
claim says it is retained, yet the transform drops it and the key holds
the grass surface id instead. -/
theorem C2_cex :
    (md1.blockTypes.find? (fun b => decide (b.id = 4))).map BlockData.isLiquid
      = some true ∧
    dictGet? md1.blocks "0,0,0" = some 4 ∧
    Coordinates.from_string "0,0,0" = some ⟨0, 0, 0⟩ ∧
    (0 : Int) ≤ TARGET_HEIGHT ∧
    runTransform md1 =
      Except.ok [("0,0,0", 1), ("0,1,0", 3), ("0,2,0", 3)] ∧
    dictGet? [("0,0,0", 1), ("0,1,0", 3), ("0,2,0", 3)] "0,0,0" = some 1 ∧
    (1 : Int) ≠ 4 := by
  refine ⟨rfl, rfl, rfl, by decide, rfl, rfl, by decide⟩

/-- A key that parses to a coordinate at or below the target height is
never a marker key (markers sit strictly above the target height). -/
theorem not_markerKey_of_y_le {center : Int × Int} {k : String}
    {c : Coordinates} (hc : Coordinates.from_string k = some c)
    (hy : c.y ≤ TARGET_HEIGHT) : k ∉ markerKeys center := by
  intro hmem
  obtain ⟨h, h1, h2, hk⟩ := mem_markerKeys.1 hmem
  rw [hk, from_string_to_string] at hc
  have hcc := Option.some.inj hc
  rw [← hcc] at hy
  have hyy : (⟨center.1, TARGET_HEIGHT + h, center.2⟩ : Coordinates).y =
      TARGET_HEIGHT + h := rfl
  rw [hyy] at hy
  omega

/-- C2 (amended): pruning is keyed on the WATER_STILL block id, not on
the isLiquid flag.  A block whose id equals the WATER_STILL id is dropped
by the retention filter when y > target height and retained — surviving
unchanged into the final output — when y ≤ target height; a block with
any other id, liquid-flagged or not, is retained iff y < target height. -/
theorem C2_amended (md : MapData) (out p : List (String × Int)) (k : String)
    (v w : Int) (c : Coordinates)
    (hnd : NoDupKeys md.blocks)
    (hr : runTransform md = Except.ok out)
    (hp : process_existing_blocks md.blocks md.blockTypes = Except.ok p)
    (hk : dictGet? md.blocks k = some v)
    (hc : Coordinates.from_string k = some c)
    (hw : getattr md.blockTypes "WATER_STILL" = Except.ok w) :
    (v = w → (TARGET_HEIGHT < c.y → dictGet? p k = none) ∧
      (c.y ≤ TARGET_HEIGHT →
        dictGet? p k = some v ∧ dictGet? out k = some v)) ∧
    (v ≠ w → (c.y < TARGET_HEIGHT →
        dictGet? p k = some v ∧ dictGet? out k = some v) ∧
      (TARGET_HEIGHT ≤ c.y → dictGet? p k = none)) := by
  obtain ⟨bounds, g, w', sb, hb, hg, hw', hsb, hnd1, hspec⟩ :=
    runTransform_spec hnd hr
  have hww : w = w' := by
    rw [hw] at hw'
    exact Except.ok.inj hw'
  subst hww
  have hparse : ∀ q ∈ md.blocks, (Coordinates.from_string q.1).isSome := by
    intro q hq
    obtain ⟨c0, hc0, -⟩ := (get_map_bounds_char hb).2.1 q hq
    rw [hc0]
    rfl
  have hpchar : dictGet? p k = pGet w md.blocks k :=
    dictGet?_process k hw hparse hnd hp
  have hpg : pGet w md.blocks k =
      if keepBlock w v c then some v else none := by
    rw [pGet, hk, hc]
  have hkept_out : keepBlock w v c = true → dictGet? out k = some v := by
    intro hkeep
    have hyle : c.y ≤ TARGET_HEIGHT := by
      rw [keepBlock] at hkeep
      by_cases hvw : v = w
      · rw [if_pos hvw] at hkeep
        exact of_decide_eq_true hkeep
      · rw [if_neg hvw] at hkeep
        exact le_of_lt (of_decide_eq_true hkeep)
    rw [hspec k, outSpec, if_neg (not_markerKey_of_y_le hc hyle), hpg,
      if_pos hkeep]
    rfl
  constructor
  · intro hvw
    constructor
    · intro hy
      rw [hpchar, hpg, if_neg ?hcond]
      case hcond =>
        rw [keepBlock, if_pos hvw]
        intro hdec
        exact absurd (of_decide_eq_true hdec) (by omega)
    · intro hy
      have hkeep : keepBlock w v c = true := by
        rw [keepBlock, if_pos hvw]
        exact decide_eq_true hy
      exact ⟨by rw [hpchar, hpg, if_pos hkeep], hkept_out hkeep⟩
  · intro hvw
    constructor
    · intro hy
      have hkeep : keepBlock w v c = true := by
        rw [keepBlock, if_neg hvw]
        exact decide_eq_true hy
      exact ⟨by rw [hpchar, hpg, if_pos hkeep], hkept_out hkeep⟩
    · intro hy
      rw [hpchar, hpg, if_neg ?hcond2]
      case hcond2 =>
        rw [keepBlock, if_neg hvw]
        intro hdec
        exact absurd (of_decide_eq_true hdec) (by omega)

/-- C2 amended witness: in `md1` the lava block (id 4 ≠ water id 2) at
y = 0 is dropped by the filter. -/
theorem C2_amended_witness :
    ((4 : Int) = 2 → (TARGET_HEIGHT < (0 : Int) →
        dictGet? [] "0,0,0" = none) ∧
      ((0 : Int) ≤ TARGET_HEIGHT → dictGet? [] "0,0,0" = some 4 ∧
        dictGet? [("0,0,0", 1), ("0,1,0", 3), ("0,2,0", 3)] "0,0,0" =
          some 4)) ∧
    ((4 : Int) ≠ 2 → ((0 : Int) < TARGET_HEIGHT →
        dictGet? [] "0,0,0" = some 4 ∧
        dictGet? [("0,0,0", 1), ("0,1,0", 3), ("0,2,0", 3)] "0,0,0" =
          some 4) ∧
      (TARGET_HEIGHT ≤ (0 : Int) → dictGet? [] "0,0,0" = none)) :=
  C2_amended md1 [("0,0,0", 1), ("0,1,0", 3), ("0,2,0", 3)] [] "0,0,0" 4 2
    ⟨0, 0, 0⟩ (by unfold NoDupKeys; decide) rfl rfl rfl rfl rfl

/-- C3 (counterexample): in `md0` the water block at "0,0,0" overwrites
the generated surface: the output maps "0,0,0" (inside the box, at target
height) to the water id 2, not the grass id 1, and "0,0,0" is not a
center-marker coordinate. -/
theorem C3_cex :
    get_map_bounds md0.blocks = Except.ok ⟨0, 0, 0, 0⟩ ∧
    getattr md0.blockTypes "GRASS" = Except.ok 1 ∧
    runTransform md0 =
      Except.ok [("0,0,0", 2), ("0,1,0", 3), ("0,2,0", 3)] ∧
    dictGet? [("0,0,0", 2), ("0,1,0", 3), ("0,2,0", 3)] "0,0,0" = some 2 ∧
    ((2 : Int) ≠ 1) ∧
    "0,0,0" ∉ markerKeys (MapBounds.center ⟨0, 0, 0, 0⟩) := by
  refine ⟨rfl, rfl, rfl, rfl, by decide, by decide⟩

/-- C3 (amended): for every (x, z) of the bounding box the output maps
the canonical key (x, target height, z) to the grass id, except where the
input holds a WATER_STILL block at that exact key, whose value overwrites
the surface; the center marker never overwrites the surface since its
keys lie strictly above the target height. -/
theorem C3_amended (md : MapData) (out : List (String × Int))
    (bounds : MapBounds) (g w x z : Int)
    (hnd : NoDupKeys md.blocks)
    (hr : runTransform md = Except.ok out)
    (hb : get_map_bounds md.blocks = Except.ok bounds)
    (hg : getattr md.blockTypes "GRASS" = Except.ok g)
    (hw : getattr md.blockTypes "WATER_STILL" = Except.ok w)
    (hx1 : bounds.min_x ≤ x) (hx2 : x ≤ bounds.max_x)
    (hz1 : bounds.min_z ≤ z) (hz2 : z ≤ bounds.max_z) :
    dictGet? out (Coordinates.to_string ⟨x, TARGET_HEIGHT, z⟩) =
      some (if dictGet? md.blocks
          (Coordinates.to_string ⟨x, TARGET_HEIGHT, z⟩) = some w
        then w else g) := by
  obtain ⟨bounds', g', w', sb, hb', hg', hw', hsb, hnd1, hspec⟩ :=
    runTransform_spec hnd hr
  have hbb : bounds = bounds' := by
    rw [hb] at hb'
    exact Except.ok.inj hb'
  subst hbb
  have hgg : g = g' := by
    rw [hg] at hg'
    exact Except.ok.inj hg'
  subst hgg
  have hww : w = w' := by
    rw [hw] at hw'
    exact Except.ok.inj hw'
  subst hww
  have hfs : Coordinates.from_string
      (Coordinates.to_string ⟨x, TARGET_HEIGHT, z⟩) =
        some ⟨x, TARGET_HEIGHT, z⟩ := from_string_to_string _
  have hsg : sGet bounds g (Coordinates.to_string ⟨x, TARGET_HEIGHT, z⟩) =
      some g := sGet_of_conds rfl hx1 hx2 hz1 hz2
  rw [hspec _, outSpec, if_neg (not_markerKey_of_y_le hfs (le_refl _))]
  cases hbk : dictGet? md.blocks
      (Coordinates.to_string ⟨x, TARGET_HEIGHT, z⟩) with
  | none =>
    have hpg : pGet w md.blocks
        (Coordinates.to_string ⟨x, TARGET_HEIGHT, z⟩) = none := by
      simp only [pGet, hbk]
    rw [hpg, hsg, if_neg (by simp)]
    rfl
  | some v =>
    by_cases hvw : v = w
    · have hkeep : keepBlock w v ⟨x, TARGET_HEIGHT, z⟩ = true := by
        rw [keepBlock, if_pos hvw]
        exact decide_eq_true (le_refl TARGET_HEIGHT)
      have hpg : pGet w md.blocks
          (Coordinates.to_string ⟨x, TARGET_HEIGHT, z⟩) = some v := by
        simp only [pGet, hbk, hfs]
        rw [if_pos hkeep]
      rw [hpg, if_pos (by rw [hvw])]
      exact congrArg some hvw
    · have hkeep : keepBlock w v ⟨x, TARGET_HEIGHT, z⟩ = false := by
        rw [keepBlock, if_neg hvw]
        exact decide_eq_false (lt_irrefl TARGET_HEIGHT)
      have hpg : pGet w md.blocks
          (Coordinates.to_string ⟨x, TARGET_HEIGHT, z⟩) = none := by
        simp only [pGet, hbk, hfs]
        rw [if_neg (by rw [hkeep]; exact Bool.false_ne_true)]
      rw [hpg, hsg, if_neg (fun hh => hvw (Option.some.inj hh))]
      rfl

/-- C3 amended witness: in `md0` the surface cell (0, 0, 0) holds the
water id 2 because the input has water at that key. -/
theorem C3_amended_witness :
    dictGet? [("0,0,0", 2), ("0,1,0", 3), ("0,2,0", 3)]
      (Coordinates.to_string ⟨0, TARGET_HEIGHT, 0⟩) =
      some (if dictGet? md0.blocks
          (Coordinates.to_string ⟨0, TARGET_HEIGHT, 0⟩) = some 2
        then 2 else 1) :=
  C3_amended md0 [("0,0,0", 2), ("0,1,0", 3), ("0,2,0", 3)] ⟨0, 0, 0, 0⟩
    1 2 0 0 (by unfold NoDupKeys; decide) rfl rfl rfl rfl
    (by decide) (by decide) (by decide) (by decide)

/-- A document with one non-liquid block strictly below the target
height. -/
def md6 : MapData := ⟨bts0, [("0,-1,0", 1)]⟩

/-- C6: sub-surface preservation.  Every input entry whose block type is
not flagged liquid and whose coordinate lies strictly below the target
height keeps its exact key and block id in the transform output.  (The
proof shows this for every entry with y < target height, liquid or not.) -/
theorem C6_subsurface_preserved (md : MapData) (out : List (String × Int))
    (k : String) (v : Int) (c : Coordinates)
    (hnd : NoDupKeys md.blocks)
    (hr : runTransform md = Except.ok out)
    (hk : dictGet? md.blocks k = some v)
    (hc : Coordinates.from_string k = some c)
    (_hnl : ∀ b ∈ md.blockTypes, b.id = v → b.isLiquid = false)
    (hy : c.y < TARGET_HEIGHT) :
    dictGet? out k = some v := by
  obtain ⟨bounds, g, w, sb, hb, hg, hw, hsb, hnd1, hspec⟩ :=
    runTransform_spec hnd hr
  have hkeep : keepBlock w v c = true := by
    rw [keepBlock]
    by_cases hvw : v = w
    · rw [if_pos hvw]
      exact decide_eq_true (le_of_lt hy)
    · rw [if_neg hvw]
      exact decide_eq_true hy
  have hpg : pGet w md.blocks k = some v := by
    simp only [pGet, hk, hc]
    rw [if_pos hkeep]
  rw [hspec k, outSpec,
    if_neg (not_markerKey_of_y_le hc (le_of_lt hy)), hpg]
  rfl

/-- C6 witness: the grass block at "0,-1,0" in `md6` survives the
transform unchanged. -/
theorem C6_subsurface_preserved_witness :
    dictGet? [("0,0,0", 1), ("0,-1,0", 1), ("0,1,0", 3), ("0,2,0", 3)]
      "0,-1,0" = some 1 :=
  C6_subsurface_preserved md6
    [("0,0,0", 1), ("0,-1,0", 1), ("0,1,0", 3), ("0,2,0", 3)]
    "0,-1,0" 1 ⟨0, -1, 0⟩ (by unfold NoDupKeys; decide) rfl rfl rfl
    (by decide) (by decide)

/-- A block kept by the retention filter sits at or below the target
height (water: y ≤ target; everything else: y < target). -/
theorem keepBlock_y_le {w v : Int} {c : Coordinates}
    (h : keepBlock w v c = true) : c.y ≤ TARGET_HEIGHT := by
  rw [keepBlock] at h
  by_cases hvw : v = w
  · rw [if_pos hvw] at h
    exact of_decide_eq_true h
  · rw [if_neg hvw] at h
    exact le_of_lt (of_decide_eq_true h)

/-- If no table entry has the given normalized name, the dynamic
attribute access raises `AttributeError`. -/
theorem getattr_of_absent {bts : List BlockData} {attr : String}
    (h : ∀ b ∈ bts, normalizeName b.name ≠ attr) :
    getattr bts attr = Except.error (PyError.attributeError attr) := by
  have hfind : lookupAttr bts attr = none := by
    rw [lookupAttr, List.find?_eq_none.2 ?hnone]
    · rfl
    case hnone =>
      intro b hb
      simp only [decide_eq_true_eq]
      exact h b (List.mem_reverse.1 hb)
  rw [getattr, hfind]

/-- A document with bounding box X(0..4), Z(0..2). -/
def md8 : MapData := ⟨bts0, [("0,0,0", 2), ("4,0,2", 2)]⟩

/-- The transform output for `md8` (surface 5 × 3, two retained water
cells, two marker blocks). -/
def out8 : List (String × Int) :=
  [("0,0,0", 2), ("0,0,1", 1), ("0,0,2", 1), ("1,0,0", 1), ("1,0,1", 1),
    ("1,0,2", 1), ("2,0,0", 1), ("2,0,1", 1), ("2,0,2", 1), ("3,0,0", 1),
    ("3,0,1", 1), ("3,0,2", 1), ("4,0,0", 1), ("4,0,1", 1), ("4,0,2", 2),
    ("2,1,1", 3), ("2,2,1", 3)]

/-- C8: marker placement.  For the bounding box min_x=0, max_x=4,
min_z=0, max_z=2 the center is (2,1) by floor division; the output maps
the keys "2,1,1" and "2,2,1" to the stone-bricks id (the marker write
happens last and overwrites whatever was there), and no other block sits
at those two coordinates: any output entry whose key parses to (2,1,1) or
(2,2,1) is one of those two exact keys with the marker value. -/
theorem C8_marker_placement (md : MapData) (out : List (String × Int))
    (sb : Int)
    (hnd : NoDupKeys md.blocks)
    (hr : runTransform md = Except.ok out)
    (hb : get_map_bounds md.blocks = Except.ok ⟨0, 4, 0, 2⟩)
    (hsb : getattr md.blockTypes "STONE_BRICKS" = Except.ok sb) :
    MapBounds.center ⟨0, 4, 0, 2⟩ = (2, 1) ∧
    dictGet? out "2,1,1" = some sb ∧
    dictGet? out "2,2,1" = some sb ∧
    (∀ k v, dictGet? out k = some v →
      (Coordinates.from_string k = some ⟨2, 1, 1⟩ ∨
        Coordinates.from_string k = some ⟨2, 2, 1⟩) →
      (k = "2,1,1" ∨ k = "2,2,1") ∧ v = sb) := by
  obtain ⟨bounds', g, w, sb', hb', hg, hw, hsb', hnd1, hspec⟩ :=
    runTransform_spec hnd hr
  have hbb : (⟨0, 4, 0, 2⟩ : MapBounds) = bounds' := by
    rw [hb] at hb'
    exact Except.ok.inj hb'
  subst hbb
  have hss : sb = sb' := by
    rw [hsb] at hsb'
    exact Except.ok.inj hsb'
  subst hss
  have hmk : markerKeys (MapBounds.center ⟨0, 4, 0, 2⟩) =
      ["2,1,1", "2,2,1"] := by decide
  refine ⟨by decide, ?_, ?_, ?_⟩
  · rw [hspec _, outSpec, hmk, if_pos (by decide)]
  · rw [hspec _, outSpec, hmk, if_pos (by decide)]
  · intro k v hkv hdisj
    rw [hspec k, outSpec, hmk] at hkv
    by_cases hm : k ∈ ["2,1,1", "2,2,1"]
    · rw [if_pos hm] at hkv
      refine ⟨?_, (Option.some.inj hkv).symm⟩
      rcases List.mem_cons.1 hm with h1 | h1
      · exact Or.inl h1
      · exact Or.inr (List.mem_singleton.1 h1)
    · rw [if_neg hm] at hkv
      exfalso
      cases hpg : pGet w md.blocks k with
      | some v2 =>
        obtain ⟨hbk, c, hc, hkeep⟩ := pGet_eq_some hpg
        have hyle := keepBlock_y_le hkeep
        rcases hdisj with h1 | h1
        · rw [h1] at hc
          rw [← Option.some.inj hc] at hyle
          exact absurd hyle (by decide)
        · rw [h1] at hc
          rw [← Option.some.inj hc] at hyle
          exact absurd hyle (by decide)
      | none =>
        rw [hpg] at hkv
        have hsg : sGet ⟨0, 4, 0, 2⟩ g k = some v := hkv
        obtain ⟨-, c, hc, -, hy, -⟩ := sGet_eq_some hsg
        rcases hdisj with h1 | h1
        · rw [h1] at hc
          rw [← Option.some.inj hc] at hy
          exact absurd hy (by decide)
        · rw [h1] at hc
          rw [← Option.some.inj hc] at hy
          exact absurd hy (by decide)

/-- C8 witness: the concrete document `md8` has the claimed bounding box
and marker placement. -/
theorem C8_marker_placement_witness :
    MapBounds.center ⟨0, 4, 0, 2⟩ = (2, 1) ∧
    dictGet? out8 "2,1,1" = some 3 ∧
    dictGet? out8 "2,2,1" = some 3 := by
  have h := C8_marker_placement md8 out8 3 (by unfold NoDupKeys; decide)
    rfl rfl rfl
  exact ⟨h.1, h.2.1, h.2.2.1⟩

/-- C9: missing semantic block name.  When the input parses to a valid
bounding box, the absence from the block-type table of any entry whose
normalized (uppercased, hyphen→underscore) name equals GRASS, WATER_STILL
or STONE_BRICKS makes the transform abort with the `AttributeError` of
that name at its first lookup (GRASS in the surface loop, then
WATER_STILL in the retention loop, then STONE_BRICKS in the marker loop)
— no other block id is silently substituted. -/
theorem C9_missing_name_aborts (md : MapData) (bounds : MapBounds)
    (hb : get_map_bounds md.blocks = Except.ok bounds) :
    ((∀ b ∈ md.blockTypes, normalizeName b.name ≠ "GRASS") →
      runTransform md = Except.error (PyError.attributeError "GRASS")) ∧
    (∀ g, getattr md.blockTypes "GRASS" = Except.ok g →
      (∀ b ∈ md.blockTypes, normalizeName b.name ≠ "WATER_STILL") →
      runTransform md =
        Except.error (PyError.attributeError "WATER_STILL")) ∧
    (∀ g w, getattr md.blockTypes "GRASS" = Except.ok g →
      getattr md.blockTypes "WATER_STILL" = Except.ok w →
      (∀ b ∈ md.blockTypes, normalizeName b.name ≠ "STONE_BRICKS") →
      runTransform md =
        Except.error (PyError.attributeError "STONE_BRICKS")) := by
  obtain ⟨hne, hrange, -, -, -, -⟩ := get_map_bounds_char hb
  have hparse : ∀ p ∈ md.blocks, (Coordinates.from_string p.1).isSome := by
    intro p hp
    obtain ⟨c, hc, -⟩ := hrange p hp
    rw [hc]
    rfl
  have hbox : bounds.min_x ≤ bounds.max_x ∧ bounds.min_z ≤ bounds.max_z := by
    obtain ⟨q, rest, hq⟩ := List.exists_cons_of_ne_nil hne
    obtain ⟨c, -, hcr⟩ := hrange q (hq ▸ List.mem_cons_self q rest)
    omega
  have hsurfne : surfaceCoords bounds ≠ [] := by
    intro hnil
    have hmem : (⟨bounds.min_x, TARGET_HEIGHT, bounds.min_z⟩ :
        Coordinates) ∈ surfaceCoords bounds :=
      mem_surfaceCoords.2 ⟨rfl, le_refl _, hbox.1, le_refl _, hbox.2⟩
    rw [hnil] at hmem
    cases hmem
  refine ⟨?_, ?_, ?_⟩
  · intro habs
    have hgerr := getattr_of_absent habs
    have hcf : create_flat_surface bounds md.blockTypes =
        Except.error (PyError.attributeError "GRASS") := by
      obtain ⟨c0, rest, hcr⟩ := List.exists_cons_of_ne_nil hsurfne
      rw [create_flat_surface, hcr]
      exact surfaceAux_error hgerr _ _ _
    simp only [runTransform, hb, hcf]
  · intro g hg habs
    have hwerr := getattr_of_absent habs
    have hpe : process_existing_blocks md.blocks md.blockTypes =
        Except.error (PyError.attributeError "WATER_STILL") := by
      obtain ⟨q, rest, hq⟩ := List.exists_cons_of_ne_nil hne
      obtain ⟨c, hc⟩ := Option.isSome_iff_exists.1
        (hparse q (hq ▸ List.mem_cons_self q rest))
      rw [process_existing_blocks, hq]
      simp only [pebAux, keepStep_error hc hwerr _]
    simp only [runTransform, hb, create_flat_surface,
      surfaceAux_ok hg (surfaceCoords bounds), hpe]
  · intro g w hg hw habs
    have hserr := getattr_of_absent habs
    have hm : ∀ (d : List (String × Int)) (center : Int × Int),
        add_center_marker d center md.blockTypes =
          Except.error (PyError.attributeError "STONE_BRICKS") := by
      intro d center
      simp only [add_center_marker, intRange_marker, markerAux, hserr]
    simp only [runTransform, hb, create_flat_surface,
      surfaceAux_ok hg (surfaceCoords bounds), process_existing_blocks,
      pebAux_ok hw md.blocks hparse, hm]

/-- A block-type table without any grass-named entry. -/
def bts9 : List BlockData :=
  [⟨2, "water-still", "blocks/water-still.png", true⟩,
    ⟨3, "stone-bricks", "blocks/stone-bricks.png", false⟩]

/-- A document whose table lacks the GRASS name. -/
def md9 : MapData := ⟨bts9, [("0,0,0", 2)]⟩

/-- C9 witness: on `md9` (no GRASS entry) the transform aborts with
`AttributeError: GRASS`. -/
theorem C9_missing_name_aborts_witness :
    runTransform md9 = Except.error (PyError.attributeError "GRASS") :=
  (C9_missing_name_aborts md9 ⟨0, 0, 0, 0⟩ rfl).1 (by decide)

/-- C10: above-surface characterization.  Every key of the transform
output parses, and when its coordinate lies strictly above the target
height it is one of the CENTER_MARKER_HEIGHT canonical marker keys
(center_x, target_height + h, center_z), 1 ≤ h ≤ CENTER_MARKER_HEIGHT,
and its value is the stone-bricks id — nothing else survives or is
created strictly above the target height. -/
theorem C10_above_surface (md : MapData) (out : List (String × Int))
    (bounds : MapBounds) (sb : Int) (k : String) (v : Int)
    (hnd : NoDupKeys md.blocks)
    (hr : runTransform md = Except.ok out)
    (hb : get_map_bounds md.blocks = Except.ok bounds)
    (hsb : getattr md.blockTypes "STONE_BRICKS" = Except.ok sb)
    (hkv : dictGet? out k = some v) :
    ∃ c, Coordinates.from_string k = some c ∧
      (TARGET_HEIGHT < c.y →
        k = Coordinates.to_string c ∧ v = sb ∧
        ∃ h : Int, 1 ≤ h ∧ h ≤ CENTER_MARKER_HEIGHT ∧
          c = ⟨bounds.center.1, TARGET_HEIGHT + h, bounds.center.2⟩) := by
  obtain ⟨bounds', g, w, sb', hb', hg, hw, hsb', hnd1, hspec⟩ :=
    runTransform_spec hnd hr
  have hbb : bounds = bounds' := by
    rw [hb] at hb'
    exact Except.ok.inj hb'
  subst hbb
  have hss : sb = sb' := by
    rw [hsb] at hsb'
    exact Except.ok.inj hsb'
  subst hss
  rw [hspec k, outSpec] at hkv
  by_cases hm : k ∈ markerKeys bounds.center
  · obtain ⟨h, h1, h2, hk⟩ := mem_markerKeys.1 hm
    subst hk
    rw [if_pos hm] at hkv
    exact ⟨⟨bounds.center.1, TARGET_HEIGHT + h, bounds.center.2⟩,
      from_string_to_string _,
      fun _ => ⟨rfl, (Option.some.inj hkv).symm, h, h1, h2, rfl⟩⟩
  · rw [if_neg hm] at hkv
    cases hpg : pGet w md.blocks k with
    | some v2 =>
      obtain ⟨hbk, c, hc, hkeep⟩ := pGet_eq_some hpg
      have hyle := keepBlock_y_le hkeep
      exact ⟨c, hc, fun hy => absurd hyle (by omega)⟩
    | none =>
      rw [hpg] at hkv
      have hsg : sGet bounds g k = some v := hkv
      obtain ⟨-, c, hc, -, hy, -⟩ := sGet_eq_some hsg
      exact ⟨c, hc, fun hy2 => absurd hy (by omega)⟩

/-- C10 witness: in the output of `md0` the key "0,1,0" (strictly above
target height) is the first marker key with the stone-bricks id. -/
theorem C10_above_surface_witness :
    ∃ c, Coordinates.from_string "0,1,0" = some c ∧
      (TARGET_HEIGHT < c.y →
        "0,1,0" = Coordinates.to_string c ∧ (3 : Int) = 3 ∧
        ∃ h : Int, 1 ≤ h ∧ h ≤ CENTER_MARKER_HEIGHT ∧
          c = ⟨(MapBounds.center ⟨0, 0, 0, 0⟩).1, TARGET_HEIGHT + h,
            (MapBounds.center ⟨0, 0, 0, 0⟩).2⟩) :=
  C10_above_surface md0 [("0,0,0", 2), ("0,1,0", 3), ("0,2,0", 3)]
    ⟨0, 0, 0, 0⟩ 3 "0,1,0" 3 (by unfold NoDupKeys; decide) rfl rfl rfl rfl

/-- C5: idempotence.  Running the transform a second time on the output
of a successful first run recomputes the same bounding box, succeeds, and
returns a block mapping that agrees with the first run's output at every
key (same surface, same retained blocks, same marker placement). -/
theorem C5_idempotent (md : MapData) (out1 : List (String × Int))
    (hnd : NoDupKeys md.blocks)
    (h1 : runTransform md = Except.ok out1) :
    get_map_bounds out1 = get_map_bounds md.blocks ∧
    ∃ out2, runTransform ⟨md.blockTypes, out1⟩ = Except.ok out2 ∧
      ∀ k, dictGet? out2 k = dictGet? out1 k := by
  obtain ⟨bounds, g, w, sb, hb, hg, hw, hsb, hnd1, hspec⟩ :=
    runTransform_spec hnd h1
  obtain ⟨hne, hrange, -, -, -, -⟩ := get_map_bounds_char hb
  have hbox : bounds.min_x ≤ bounds.max_x ∧ bounds.min_z ≤ bounds.max_z := by
    obtain ⟨q, rest, hq⟩ := List.exists_cons_of_ne_nil hne
    obtain ⟨c, -, hcr⟩ := hrange q (hq ▸ List.mem_cons_self q rest)
    omega
  have hcenx : bounds.min_x ≤ bounds.center.1 ∧
      bounds.center.1 ≤ bounds.max_x := center_bounds hbox.1
  have hcenz : bounds.min_z ≤ bounds.center.2 ∧
      bounds.center.2 ≤ bounds.max_z := center_bounds hbox.2
  have hget_parse : ∀ k v', dictGet? out1 k = some v' →
      ∃ c, Coordinates.from_string k = some c ∧
        bounds.min_x ≤ c.x ∧ c.x ≤ bounds.max_x ∧
        bounds.min_z ≤ c.z ∧ c.z ≤ bounds.max_z := by
    intro k v' hkv
    rw [hspec k, outSpec] at hkv
    by_cases hm : k ∈ markerKeys bounds.center
    · obtain ⟨h, hh1, hh2, hk⟩ := mem_markerKeys.1 hm
      subst hk
      exact ⟨⟨bounds.center.1, TARGET_HEIGHT + h, bounds.center.2⟩,
        from_string_to_string _, hcenx.1, hcenx.2, hcenz.1, hcenz.2⟩
    · rw [if_neg hm] at hkv
      cases hpg : pGet w md.blocks k with
      | some v2 =>
        obtain ⟨hbk, c, hc, -⟩ := pGet_eq_some hpg
        obtain ⟨c', hc', hr'⟩ := hrange (k, v2) (mem_of_dictGet? hbk)
        exact ⟨c', hc', hr'⟩
      | none =>
        rw [hpg] at hkv
        have hsg : sGet bounds g k = some v' := hkv
        obtain ⟨-, c, hc, -, -, hbx⟩ := sGet_eq_some hsg
        exact ⟨c, hc, hbx.1, hbx.2.1, hbx.2.2.1, hbx.2.2.2⟩
  have hparse2 : ∀ p ∈ out1, (Coordinates.from_string p.1).isSome := by
    intro p hp
    rcases p with ⟨k, v'⟩
    obtain ⟨c, hc, -⟩ := hget_parse k v' (dictGet?_of_mem hnd1 hp)
    rw [hc]
    rfl
  have hcorner : ∀ x z : Int, bounds.min_x ≤ x → x ≤ bounds.max_x →
      bounds.min_z ≤ z → z ≤ bounds.max_z →
      (dictGet? out1
        (Coordinates.to_string ⟨x, TARGET_HEIGHT, z⟩)).isSome := by
    intro x z hh1 hh2 hh3 hh4
    rw [hspec _, outSpec]
    by_cases hm : Coordinates.to_string ⟨x, TARGET_HEIGHT, z⟩ ∈
        markerKeys bounds.center
    · rw [if_pos hm]
      rfl
    · rw [if_neg hm]
      have hsg : sGet bounds g
          (Coordinates.to_string ⟨x, TARGET_HEIGHT, z⟩) = some g :=
        sGet_of_conds rfl hh1 hh2 hh3 hh4
      cases hpg : pGet w md.blocks
          (Coordinates.to_string ⟨x, TARGET_HEIGHT, z⟩) with
      | some v2 => rfl
      | none => rw [hsg]; rfl
  have hne1 : out1 ≠ [] := by
    intro hnil
    have hc0 := hcorner bounds.min_x bounds.min_z (le_refl _) hbox.1
      (le_refl _) hbox.2
    rw [hnil] at hc0
    simp [dictGet?] at hc0
  have hb2 : get_map_bounds out1 = Except.ok bounds := by
    obtain ⟨bounds2, hbo⟩ := get_map_bounds_total hne1 hparse2
    have hall : ∀ p ∈ out1, ∀ c, Coordinates.from_string p.1 = some c →
        bounds.min_x ≤ c.x ∧ c.x ≤ bounds.max_x ∧
        bounds.min_z ≤ c.z ∧ c.z ≤ bounds.max_z := by
      intro p hp c hc
      rcases p with ⟨k, v'⟩
      obtain ⟨c0, hc0, hr0⟩ := hget_parse k v' (dictGet?_of_mem hnd1 hp)
      have hcc : c0 = c := by
        rw [hc] at hc0
        exact (Option.some.inj hc0).symm
      subst hcc
      exact hr0
    obtain ⟨vA, hvA⟩ := Option.isSome_iff_exists.1
      (hcorner bounds.min_x bounds.min_z (le_refl _) hbox.1
        (le_refl _) hbox.2)
    obtain ⟨vB, hvB⟩ := Option.isSome_iff_exists.1
      (hcorner bounds.max_x bounds.max_z hbox.1 (le_refl _)
        hbox.2 (le_refl _))
    have heq := get_map_bounds_eq hbo hall
      ⟨_, mem_of_dictGet? hvA, _, from_string_to_string _, rfl⟩
      ⟨_, mem_of_dictGet? hvB, _, from_string_to_string _, rfl⟩
      ⟨_, mem_of_dictGet? hvA, _, from_string_to_string _, rfl⟩
      ⟨_, mem_of_dictGet? hvB, _, from_string_to_string _, rfl⟩
    rw [hbo, heq]
  have hex : ∃ out2, runTransform ⟨md.blockTypes, out1⟩ =
      Except.ok out2 := by
    simp only [runTransform, hb2, create_flat_surface,
      surfaceAux_ok hg (surfaceCoords bounds), process_existing_blocks,
      pebAux_ok hw out1 hparse2, add_center_marker_ok hsb]
    exact ⟨_, rfl⟩
  obtain ⟨out2, h2⟩ := hex
  obtain ⟨bounds2, g2, w2, sb2, hb2', hg2, hw2, hsb2, hnd2, hspec2⟩ :=
    runTransform_spec hnd1 h2
  have hprojB : (⟨md.blockTypes, out1⟩ : MapData).blocks = out1 := rfl
  have hprojT : (⟨md.blockTypes, out1⟩ : MapData).blockTypes =
      md.blockTypes := rfl
  rw [hprojB] at hb2'
  rw [hprojT] at hg2 hw2 hsb2
  have hpin_b : bounds = bounds2 := by
    rw [hb2] at hb2'
    exact Except.ok.inj hb2'
  subst hpin_b
  have hpin_g : g = g2 := by
    rw [hg] at hg2
    exact Except.ok.inj hg2
  subst hpin_g
  have hpin_w : w = w2 := by
    rw [hw] at hw2
    exact Except.ok.inj hw2
  subst hpin_w
  have hpin_s : sb = sb2 := by
    rw [hsb] at hsb2
    exact Except.ok.inj hsb2
  subst hpin_s
  have hspec2' : ∀ k, dictGet? out2 k = outSpec bounds g w sb out1 k := by
    intro k
    rw [hspec2 k, hprojB]
  refine ⟨by rw [hb2, hb], out2, h2, ?_⟩
  intro k
  rw [hspec2' k]
  by_cases hm : k ∈ markerKeys bounds.center
  · rw [outSpec, if_pos hm, hspec k, outSpec, if_pos hm]
  · rw [outSpec, if_neg hm]
    cases hpg : pGet w md.blocks k with
    | some v =>
      obtain ⟨hbk, c, hc, hkeep⟩ := pGet_eq_some hpg
      have hout1k : dictGet? out1 k = some v := by
        rw [hspec k, outSpec, if_neg hm, hpg]
        rfl
      have hp1 : pGet w out1 k = some v := by
        simp only [pGet, hout1k, hc]
        rw [if_pos hkeep]
      rw [hp1, hout1k]
      rfl
    | none =>
      have hout1k : dictGet? out1 k = sGet bounds g k := by
        rw [hspec k, outSpec, if_neg hm, hpg]
        rfl
      cases hsg : sGet bounds g k with
      | none =>
        have h1k : dictGet? out1 k = none := by rw [hout1k, hsg]
        have hp1 : pGet w out1 k = none := by simp only [pGet, h1k]
        rw [hp1, h1k]
        rfl
      | some u =>
        obtain ⟨hug, c, hc, hck, hy, -⟩ := sGet_eq_some hsg
        subst hug
        have h1k : dictGet? out1 k = some u := by rw [hout1k, hsg]
        by_cases hgw : u = w
        · have hkeep : keepBlock w u c = true := by
            rw [keepBlock, if_pos hgw, hy]
            exact decide_eq_true (le_refl _)
          have hp1 : pGet w out1 k = some u := by
            simp only [pGet, h1k, hc]
            rw [if_pos hkeep]
          rw [hp1, h1k]
          rfl
        · have hkeep : keepBlock w u c = false := by
            rw [keepBlock, if_neg hgw, hy]
            exact decide_eq_false (lt_irrefl _)
          have hp1 : pGet w out1 k = none := by
            simp only [pGet, h1k, hc]
            rw [if_neg (by rw [hkeep]; exact Bool.false_ne_true)]
          rw [hp1, h1k]
          rfl

/-- C5 witness: a second run on the output of `md0` reproduces the same
bounds and the same block mapping. -/
theorem C5_idempotent_witness :
    get_map_bounds [("0,0,0", 2), ("0,1,0", 3), ("0,2,0", 3)] =
      get_map_bounds md0.blocks ∧
    ∃ out2, runTransform
        ⟨md0.blockTypes, [("0,0,0", 2), ("0,1,0", 3), ("0,2,0", 3)]⟩ =
        Except.ok out2 ∧
      ∀ k, dictGet? out2 k =
        dictGet? [("0,0,0", 2), ("0,1,0", 3), ("0,2,0", 3)] k :=
  C5_idempotent md0 [("0,0,0", 2), ("0,1,0", 3), ("0,2,0", 3)]
    (by unfold NoDupKeys; decide) rfl

end FlattenMap
